import Mathlib

/-!
Verification of the trust-and-dedup ingestion layer and the
conversation-context aggregation engine of the boris repository.

The TypeScript sources are shallowly embedded:
JavaScript strings handled as raw bytes (signature verification,
HMAC input) are `List Nat` byte sequences; strings used only as keys or
rendered text are Lean `String`s; JavaScript `Map`s are insertion-ordered
association lists; machine numbers are `Nat`/`Int`.
-/

namespace Boris

/-! ## Bitwise helpers for 32-bit words (values kept below 2^32 by masking) -/

def w32Mod : Nat := 4294967296

def rotr32 (n x : Nat) : Nat :=
  (x / 2 ^ n + x % 2 ^ n * 2 ^ (32 - n)) % w32Mod

def shr32 (n x : Nat) : Nat := x / 2 ^ n

def xor32 (x y : Nat) : Nat := Nat.xor x y

def and32 (x y : Nat) : Nat := Nat.land x y

def not32 (x : Nat) : Nat := Nat.xor x 4294967295

/-! ## SHA-256 (node `crypto` primitive used by `createHmac`), embedded in full -/

/-- The eight initial hash words of FIPS 180-4, written in decimal. -/
def sha256H0 : List Nat :=
  [1779033703, 3144134277, 1013904242, 2773480762,
   1359893119, 2600822924, 528734635, 1541459225]

/-- The 64 round-constant words of FIPS 180-4, written in decimal. -/
def sha256K : List Nat :=
  [1116352408, 1899447441, 3049323471, 3921009573, 961987163,
   1508970993, 2453635748, 2870763221, 3624381080, 310598401,
   607225278, 1426881987, 1925078388, 2162078206, 2614888103,
   3248222580, 3835390401, 4022224774, 264347078, 604807628,
   770255983, 1249150122, 1555081692, 1996064986, 2554220882,
   2821834349, 2952996808, 3210313671, 3336571891, 3584528711,
   113926993, 338241895, 666307205, 773529912, 1294757372,
   1396182291, 1695183700, 1986661051, 2177026350, 2456956037,
   2730485921, 2820302411, 3259730800, 3345764771, 3516065817,
   3600352804, 4094571909, 275423344, 430227734, 506948616,
   659060556, 883997877, 958139571, 1322822218, 1537002063,
   1747873779, 1955562222, 2024104815, 2227730452, 2361852424,
   2428436474, 2756734187, 3204031479, 3329325298]

def smallSigma0 (x : Nat) : Nat := xor32 (xor32 (rotr32 7 x) (rotr32 18 x)) (shr32 3 x)

def smallSigma1 (x : Nat) : Nat := xor32 (xor32 (rotr32 17 x) (rotr32 19 x)) (shr32 10 x)

def bigSigma0 (x : Nat) : Nat := xor32 (xor32 (rotr32 2 x) (rotr32 13 x)) (rotr32 22 x)

def bigSigma1 (x : Nat) : Nat := xor32 (xor32 (rotr32 6 x) (rotr32 11 x)) (rotr32 25 x)

def chFn (x y z : Nat) : Nat := xor32 (and32 x y) (and32 (not32 x) z)

def majFn (x y z : Nat) : Nat := xor32 (xor32 (and32 x y) (and32 x z)) (and32 y z)

/-- Big-endian byte expansion of a number on `k` bytes. -/
def beBytes : Nat → Nat → List Nat
  | 0, _ => []
  | k + 1, n => beBytes k (n / 256) ++ [n % 256]

/-- SHA-256 padding: append `0x80`, zeros, and the 64-bit big-endian bit length. -/
def sha256Pad (msg : List Nat) : List Nat :=
  let len := msg.length
  let zeros := (64 - (len + 9) % 64) % 64
  msg ++ [128] ++ List.replicate zeros 0 ++ beBytes 8 (8 * len)

/-- Group bytes into big-endian 32-bit words. -/
def wordsOfBytes : List Nat → List Nat
  | b0 :: b1 :: b2 :: b3 :: rest =>
    (((b0 * 256 + b1) * 256 + b2) * 256 + b3) :: wordsOfBytes rest
  | _ => []

/-- Split a word list into 16-word blocks (fuel-driven recursion). -/
def blocksOfWordsGo : Nat → List Nat → List (List Nat)
  | 0, _ => []
  | fuel + 1, ws =>
    match ws with
    | [] => []
    | _ :: _ => ws.take 16 :: blocksOfWordsGo fuel (ws.drop 16)

def blocksOfWords (ws : List Nat) : List (List Nat) :=
  blocksOfWordsGo ws.length ws

/-- Extend the 16-word block to the 64-word message schedule. -/
def sha256ExtendGo : Nat → List Nat → List Nat
  | 0, w => w
  | fuel + 1, w =>
    let t := w.length
    let nw := (smallSigma1 (w.getD (t - 2) 0) + w.getD (t - 7) 0 +
               smallSigma0 (w.getD (t - 15) 0) + w.getD (t - 16) 0) % w32Mod
    sha256ExtendGo fuel (w ++ [nw])

def sha256Schedule (block : List Nat) : List Nat := sha256ExtendGo 48 block

/-- One round of the SHA-256 compression function on the eight-word state. -/
def sha256Round (s : List Nat) (kw : Nat × Nat) : List Nat :=
  let a := s.getD 0 0
  let b := s.getD 1 0
  let c := s.getD 2 0
  let d := s.getD 3 0
  let e := s.getD 4 0
  let f := s.getD 5 0
  let g := s.getD 6 0
  let h := s.getD 7 0
  let t1 := (h + bigSigma1 e + chFn e f g + kw.1 + kw.2) % w32Mod
  let t2 := (bigSigma0 a + majFn a b c) % w32Mod
  [(t1 + t2) % w32Mod, a, b, c, (d + t1) % w32Mod, e, f, g]

def sha256Compress (hv : List Nat) (block : List Nat) : List Nat :=
  let w := sha256Schedule block
  let s := (sha256K.zip w).foldl sha256Round hv
  (hv.zip s).map fun p => (p.1 + p.2) % w32Mod

/-- SHA-256 of a byte sequence, as 32 bytes. -/
def sha256 (msg : List Nat) : List Nat :=
  let hv := (blocksOfWords (wordsOfBytes (sha256Pad msg))).foldl sha256Compress sha256H0
  (hv.map (beBytes 4)).flatten

/-- HMAC-SHA256 with a 64-byte block size, as used by `createHmac("sha256", secret)`. -/
def hmacSha256 (key msg : List Nat) : List Nat :=
  let k0 := if 64 < key.length then sha256 key else key
  let kpad := k0 ++ List.replicate (64 - k0.length) 0
  sha256 ((kpad.map fun b => Nat.xor b 92) ++ sha256 ((kpad.map fun b => Nat.xor b 54) ++ msg))

/-- Lower-case hex digit of a nibble, as a byte. -/
def hexChar (n : Nat) : Nat := if n < 10 then 48 + n else 87 + n

/-- Lower-case hex rendering of bytes (the `digest("hex")` step). -/
def hexOfBytes (bs : List Nat) : List Nat :=
  bs.foldr (fun b acc => hexChar (b / 16) :: hexChar (b % 16) :: acc) []

/-! ## src/api/utils/slack-security.ts -/

/-- JavaScript whitespace bytes skipped by `Number.parseInt`. -/
def isJsSpace (c : Nat) : Bool := c == 32 || c == 9 || c == 10 || c == 13 || c == 11 || c == 12

def isDigitByte (c : Nat) : Bool := decide (48 ≤ c) && decide (c ≤ 57)

def digitsToNat (ds : List Nat) : Nat := ds.foldl (fun acc c => acc * 10 + (c - 48)) 0

/-- `Number.parseInt(s, 10)`: skip whitespace, optional sign, leading digit run;
`none` models `NaN` (no digits). -/
def jsParseInt (s : List Nat) : Option Int :=
  let t := s.dropWhile isJsSpace
  let signDigits : Int × List Nat :=
    match t with
    | 45 :: rest => (-1, rest)
    | 43 :: rest => (1, rest)
    | _ => (1, t)
  let ds := signDigits.2.takeWhile isDigitByte
  if ds.isEmpty then none else some (signDigits.1 * (digitsToNat ds : Int))

/-- `String.prototype.startsWith` on byte sequences. -/
def jsStartsWith : List Nat → List Nat → Bool
  | _, [] => true
  | [], _ :: _ => false
  | c :: s, d :: ds => c == d && jsStartsWith s ds

/-- `constantTimeCompare`: equal-length check, then `timingSafeEqual`
(byte-for-byte equality). -/
def constantTimeCompare (expected actual : List Nat) : Bool :=
  if expected.length ≠ actual.length then false else expected == actual

def SIGNATURE_VERSION_BYTES : List Nat := [118, 48]

def DEFAULT_MAX_AGE_SECONDS : Nat := 60 * 5

/-- `buildSlackSignature`: `v0=` ++ hex(HMAC-SHA256(secret, `v0:ts:body`)).
Bytes 118, 48, 58, 61 are `v`, `0`, `:`, `=`. -/
def buildSlackSignature (rawBody timestamp signingSecret : List Nat) : List Nat :=
  let baseString := [118, 48, 58] ++ timestamp ++ [58] ++ rawBody
  [118, 48, 61] ++ hexOfBytes (hmacSha256 signingSecret baseString)

inductive VerifyResult where
  | ok : VerifyResult
  | rejected : Nat → String → VerifyResult
deriving DecidableEq

/-- JavaScript falsiness of an optional string (`undefined`, `null` or `""`). -/
def isFalsyStr : Option (List Nat) → Bool
  | none => true
  | some s => s.isEmpty

/-- `verifySlackRequestSignature` with the optional `nowMs`/`maxAgeSeconds`
inputs made explicit (their defaults are `Date.now()` and
`DEFAULT_MAX_AGE_SECONDS`). -/
def verifySlackRequestSignature (rawBody : List Nat)
    (signature timestamp signingSecret : Option (List Nat))
    (nowMs : Int) (maxAgeSeconds : Nat) : VerifyResult :=
  if isFalsyStr signature || isFalsyStr timestamp || isFalsyStr signingSecret then
    VerifyResult.rejected 401 "Unauthorized"
  else
    match jsParseInt (timestamp.getD []) with
    | none => VerifyResult.rejected 401 "Invalid timestamp"
    | some requestTime =>
      let nowSeconds : Int := Int.fdiv nowMs 1000
      if maxAgeSeconds < (nowSeconds - requestTime).natAbs then
        VerifyResult.rejected 401 "Request timeout"
      else if jsStartsWith (signature.getD []) [118, 48, 61] = false then
        VerifyResult.rejected 401 "Invalid signature"
      else if constantTimeCompare
          (buildSlackSignature rawBody (timestamp.getD []) (signingSecret.getD []))
          (signature.getD []) = false then
        VerifyResult.rejected 401 "Invalid signature"
      else VerifyResult.ok

/-! ## JavaScript `Map` as an insertion-ordered association list

`set` on a present key updates the value in place (keeping insertion order),
otherwise appends; `delete` removes; iteration follows list order. -/

def jsMapGet {α : Type} (k : String) (l : List (String × α)) : Option α :=
  (l.find? fun e => e.1 == k).map fun e => e.2

def jsMapHasKey {α : Type} (k : String) (l : List (String × α)) : Bool :=
  l.any fun e => e.1 == k

def jsMapSet {α : Type} (k : String) (v : α) (l : List (String × α)) : List (String × α) :=
  if jsMapHasKey k l then l.map fun e => if e.1 == k then (k, v) else e
  else l ++ [(k, v)]

def jsMapDelete {α : Type} (k : String) (l : List (String × α)) : List (String × α) :=
  l.filter fun e => e.1 != k

/-! ## src/api/utils/idempotency.ts

`InMemoryIdempotencyStore` state is the entry map; `ttlMs` and `maxSize` are
passed explicitly. Times are `Nat` milliseconds. -/

def DEFAULT_TTL_MS : Nat := 10 * 60 * 1000

def DEFAULT_MAX_SIZE : Nat := 10000

namespace InMemoryIdempotencyStore

/-- `prune(nowMs)`: delete every entry whose expiry is at or before `nowMs`. -/
def prune (nowMs : Nat) (entries : List (String × Nat)) : List (String × Nat) :=
  entries.filter fun e => decide (nowMs < e.2)

/-- `has(key, nowMs)`: prune, then report membership; the `!expiresAt`
falsiness test and the expired-entry deletion of the source are kept.
Returns the answer together with the mutated entry map. -/
def has (key : String) (nowMs : Nat) (entries : List (String × Nat)) :
    Bool × List (String × Nat) :=
  let pruned := prune nowMs entries
  match jsMapGet key pruned with
  | none => (false, pruned)
  | some expiresAt =>
    if expiresAt = 0 then (false, pruned)
    else if expiresAt ≤ nowMs then (false, jsMapDelete key pruned)
    else (true, pruned)

/-- `add(key, nowMs)`: prune, evict the oldest key when at capacity (skipped
when that key is falsy, i.e. the empty string), then insert with
`expiresAt = nowMs + ttlMs`. -/
def add (ttlMs maxSize : Nat) (key : String) (nowMs : Nat)
    (entries : List (String × Nat)) : List (String × Nat) :=
  let pruned := prune nowMs entries
  let afterEvict :=
    if maxSize ≤ pruned.length then
      match pruned.head? with
      | some oldest => if oldest.1 = "" then pruned else jsMapDelete oldest.1 pruned
      | none => pruned
    else pruned
  jsMapSet key (nowMs + ttlMs) afterEvict

/-- Run a sequence of `add` operations (key, time) in order, starting from a
given entry map. -/
def addAll (ttlMs maxSize : Nat) (ops : List (String × Nat))
    (entries : List (String × Nat)) : List (String × Nat) :=
  ops.foldl (fun st op => add ttlMs maxSize op.1 op.2 st) entries

/-- A client-visible operation on the store. -/
inductive StoreOp where
  | addOp : String → Nat → StoreOp
  | hasOp : String → Nat → StoreOp
deriving DecidableEq

/-- Run a sequence of `add`/`has` calls, tracking the mutated entry map. -/
def runOps (ttlMs maxSize : Nat) (ops : List StoreOp)
    (entries : List (String × Nat)) : List (String × Nat) :=
  ops.foldl
    (fun st op =>
      match op with
      | StoreOp.addOp k t => add ttlMs maxSize k t st
      | StoreOp.hasOp k t => (has k t st).2)
    entries

/-- Invariant: all stored keys are non-empty and the size is within bound. -/
def goodState (maxSize : Nat) (st : List (String × Nat)) : Prop :=
  (∀ e ∈ st, e.1 ≠ "") ∧ st.length ≤ maxSize

end InMemoryIdempotencyStore

/-! ## src/api/utils/http.ts

`fetchWithRetry` is embedded over an abstract environment
`attempts : Nat → FetchOutcome` giving the outcome of the n-th `fetch` call
(a resolved response, or a thrown value).  The per-attempt timeout and the
backoff sleeps do not affect the returned value and are not modelled.  The
result is paired with the number of fetch attempts actually made. -/

structure FetchResponse where
  status : Nat
  body : String
deriving DecidableEq

/-- A value thrown by `fetch`: an `Error` with a message, or a non-`Error`. -/
inductive JsThrown where
  | jsError : String → JsThrown
  | jsNonError : JsThrown
deriving DecidableEq

inductive FetchOutcome where
  | resolved : FetchResponse → FetchOutcome
  | thrown : JsThrown → FetchOutcome
deriving DecidableEq

/-- Result of `fetchWithRetry`: the promise resolves with a response or
rejects with an error message. -/
inductive FetchResult where
  | returned : FetchResponse → FetchResult
  | threw : String → FetchResult
deriving DecidableEq

def DEFAULT_RETRIES : Nat := 2

def shouldRetryStatus (status : Nat) : Bool :=
  status == 429 || decide (500 ≤ status)

/-- The final `throw lastError instanceof Error ? lastError : new Error(...)`. -/
def coerceThrown : JsThrown → String
  | JsThrown.jsError msg => msg
  | JsThrown.jsNonError => "HTTP request failed after retries"

/-- The retry loop of `fetchWithRetry`; `fuel` counts the remaining loop
iterations (`retries + 1 - attempt`), so the fuel-0 case is the unreachable
fall-through throw with `lastError` undefined. -/
def fetchGo (attempts : Nat → FetchOutcome) (retries : Nat) :
    Nat → Nat → FetchResult × Nat
  | 0, _ => (FetchResult.threw "HTTP request failed after retries", 0)
  | fuel + 1, attempt =>
    match attempts attempt with
    | FetchOutcome.resolved r =>
      if !shouldRetryStatus r.status || attempt == retries then
        (FetchResult.returned r, 1)
      else
        let next := fetchGo attempts retries fuel (attempt + 1)
        (next.1, next.2 + 1)
    | FetchOutcome.thrown e =>
      if attempt == retries then (FetchResult.threw (coerceThrown e), 1)
      else
        let next := fetchGo attempts retries fuel (attempt + 1)
        (next.1, next.2 + 1)

def fetchWithRetry (attempts : Nat → FetchOutcome) (retries : Nat) :
    FetchResult × Nat :=
  fetchGo attempts retries (retries + 1) 0

/-- An outcome on which the loop would retry: a thrown value, or a response
whose status is 429 or at least 500. -/
def isRetryableOutcome : FetchOutcome → Bool
  | FetchOutcome.thrown _ => true
  | FetchOutcome.resolved r => shouldRetryStatus r.status

/-- What the loop produces from the outcome of the final attempt. -/
def finalOutcomeResult : FetchOutcome → FetchResult
  | FetchOutcome.resolved r => FetchResult.returned r
  | FetchOutcome.thrown e => FetchResult.threw (coerceThrown e)

/-- Attempt environment: every fetch resolves with HTTP 500. -/
def allRetryable500 : Nat → FetchOutcome :=
  fun _ => FetchOutcome.resolved ⟨500, "e"⟩

/-- Attempt environment for the [500, 500, 200] scenario. -/
def seq500scenario : Nat → FetchOutcome := fun n =>
  if n = 0 then FetchOutcome.resolved ⟨500, "a"⟩
  else if n = 1 then FetchOutcome.resolved ⟨500, "b"⟩
  else FetchOutcome.resolved ⟨200, "c"⟩

/-- Attempt environment: every fetch resolves with HTTP 400. -/
def always400 : Nat → FetchOutcome :=
  fun _ => FetchOutcome.resolved ⟨400, "d"⟩

/-- Attempt environment: every fetch rejects with a network error. -/
def alwaysNetworkError : Nat → FetchOutcome :=
  fun _ => FetchOutcome.thrown (JsThrown.jsError "network down")

/-! ## src/api/slack/client.ts: files -/

/-- A Slack file object restricted to the fields the code reads. -/
structure SlackFile where
  id : Option String
  name : Option String
  mimetype : Option String
deriving DecidableEq

/-- JavaScript truthiness of an optional string field. -/
def truthyOpt : Option String → Bool
  | none => false
  | some s => !s.isEmpty

/-- `x || d` on an optional string field. -/
def orDefault (o : Option String) (d : String) : String :=
  match o with
  | none => d
  | some s => if s.isEmpty then d else s

/-- `describeSlackFile`: `[File: name (mimetype)]` with fallbacks. -/
def describeSlackFile (file : SlackFile) : String :=
  "[File: " ++ orDefault file.name "Untitled" ++ " (" ++
    orDefault file.mimetype "unknown type" ++ ")]"

/-! ## src/handlers (unnamed part_000): mergeFiles -/

/-- The fallback identity key used by `mergeFiles` when `file.id` is falsy. -/
def fallbackKey (file : SlackFile) : String :=
  orDefault file.name "untitled" ++ ":" ++ orDefault file.mimetype "unknown"

/-- The map key a file ends up under in `mergeFiles`. -/
def keyOf (file : SlackFile) : String :=
  if truthyOpt file.id then file.id.getD "" else fallbackKey file

/-- One iteration of the `mergeFiles` loop: id-keyed files are `set`
unconditionally (last one wins), fallback-keyed files only when the key is
absent (first one wins). -/
def mergeStep (acc : List (String × SlackFile)) (file : SlackFile) :
    List (String × SlackFile) :=
  if truthyOpt file.id then jsMapSet (file.id.getD "") file acc
  else
    let fk := fallbackKey file
    if jsMapHasKey fk acc then acc else jsMapSet fk file acc

/-- `mergeFiles(historyFiles, currentFiles)`. -/
def mergeFiles (historyFiles currentFiles : List SlackFile) : List SlackFile :=
  (((historyFiles ++ currentFiles).foldl mergeStep []).map fun e => e.2)

/-- Two concrete file objects sharing the id "F1" but differing in name. -/
def fileA : SlackFile := ⟨some "F1", some "a.png", some "image/png"⟩

def fileB : SlackFile := ⟨some "F1", some "b.png", some "image/png"⟩

/-! ## src/api/slack/client.ts: response-url validation

`new URL` is modelled by a scheme-and-host parse of `scheme://host[rest]`
(scheme and host lower-cased, host ending at `/`, `:`, `?` or `#`). -/

structure UrlParts where
  protocol : String
  hostname : String
deriving DecidableEq

def isSchemeChar (c : Char) : Bool :=
  c.isAlphanum || c == '+' || c == '-' || c == '.'

def isHostEndChar (c : Char) : Bool :=
  c == '/' || c == ':' || c == '?' || c == '#'

/-- Model of the WHATWG URL parser restricted to `scheme://host...` forms;
`none` models the `URL` constructor throwing. -/
def jsParseUrl (s : String) : Option UrlParts :=
  let cs := s.toList
  let scheme := cs.takeWhile isSchemeChar
  match scheme, cs.drop scheme.length with
  | c :: _, ':' :: '/' :: '/' :: r =>
    if c.isAlpha then
      let hostChars := r.takeWhile fun ch => !isHostEndChar ch
      if hostChars.isEmpty then none
      else some
        { protocol := String.mk (scheme.map Char.toLower) ++ ":",
          hostname := String.mk (hostChars.map Char.toLower) }
    else none
  | _, _ => none

def SLACK_RESPONSE_HOST : String := "hooks.slack.com"

/-- `isValidSlackResponseUrl`: parse, then require `https:` and the
allow-listed host. -/
def isValidSlackResponseUrl (responseUrl : String) : Bool :=
  match jsParseUrl responseUrl with
  | none => false
  | some parsed =>
    parsed.protocol == "https:" && parsed.hostname == SLACK_RESPONSE_HOST

/-! ## src/api/slack/client.ts: mapMessagesToContext -/

/-- A Slack message restricted to the fields the code reads. -/
structure SlackMsg where
  ts : Option String
  bot_id : Option String
  thread_ts : Option String
  user : Option String
  text : Option String
  files : List SlackFile
deriving DecidableEq

def isDigitChar (c : Char) : Bool := decide ('0' ≤ c) && decide (c ≤ '9')

def digitCharsToNat (ds : List Char) : Nat :=
  ds.foldl (fun acc c => acc * 10 + (c.toNat - 48)) 0

/-- `Number.parseFloat` on decimal forms `[ws][sign]digits[.digits][e[sign]digits]`
(trailing garbage ignored); `none` models `NaN`, `Infinity` forms are not
modelled.  The parsed value is kept exactly as a scaled-integer pair
`(m, e)` denoting `m * 10 ^ e`. -/
def jsParseFloat (s : String) : Option (Int × Int) :=
  let cs := s.toList.dropWhile fun c => c == ' ' || c == '\t' || c == '\n' || c == '\r'
  let signRest : Int × List Char :=
    match cs with
    | '-' :: rest => (-1, rest)
    | '+' :: rest => (1, rest)
    | _ => (1, cs)
  let intDigits := signRest.2.takeWhile isDigitChar
  let afterInt := signRest.2.drop intDigits.length
  let fracDigits :=
    match afterInt with
    | '.' :: rest => rest.takeWhile isDigitChar
    | _ => []
  if intDigits.isEmpty && fracDigits.isEmpty then none
  else
    let afterFrac :=
      match afterInt with
      | '.' :: rest => rest.drop fracDigits.length
      | _ => afterInt
    let expVal : Int :=
      match afterFrac with
      | 'e' :: rest | 'E' :: rest =>
        let expSignRest : Int × List Char :=
          match rest with
          | '-' :: r2 => (-1, r2)
          | '+' :: r2 => (1, r2)
          | _ => (1, rest)
        let expDigits := expSignRest.2.takeWhile isDigitChar
        if expDigits.isEmpty then 0 else expSignRest.1 * (digitCharsToNat expDigits : Int)
      | _ => 0
    let mantissa : Int :=
      signRest.1 *
        ((digitCharsToNat intDigits : Int) * (10 : Int) ^ fracDigits.length +
          (digitCharsToNat fracDigits : Int))
    some (mantissa, expVal - fracDigits.length)

/-- The rational number denoted by a scaled-integer pair. -/
def ratOfParts (p : Int × Int) : Rat := (p.1 : Rat) * (10 : Rat) ^ p.2

/-- Numeric comparison of two parsed values by bringing both to the smaller
exponent (exact integer arithmetic). -/
def jsNumLe (a b : Int × Int) : Bool :=
  let e := min a.2 b.2
  decide (a.1 * (10 : Int) ^ (a.2 - e).toNat ≤ b.1 * (10 : Int) ^ (b.2 - e).toNat)

/-- The sort key `Number.parseFloat(message.ts || "0")`. -/
def msgKey (m : SlackMsg) : Option (Int × Int) := jsParseFloat (orDefault m.ts "0")

/-- The sort key as a rational, with `NaN` collapsed to 0 (used only in
statements). -/
def msgKeyD (m : SlackMsg) : Rat := ((msgKey m).map ratOfParts).getD 0

/-- The comparator `parseFloat(left.ts||"0") - parseFloat(right.ts||"0")`
as a should-not-swap relation; a `NaN` difference counts as 0 per the
ECMAScript `SortCompare` rule. -/
def jsCmpLe (a b : SlackMsg) : Bool :=
  match msgKey a, msgKey b with
  | some x, some y => jsNumLe x y
  | _, _ => true

def jsLeProp (a b : SlackMsg) : Prop := jsCmpLe a b = true

instance : DecidableRel jsLeProp := fun a b => instDecidableEqBool (jsCmpLe a b) true

/-- The intended numeric order on messages (used in statements): `NaN`-free
comparison of the parsed timestamp keys. -/
def keyLe (a b : SlackMsg) : Prop := msgKeyD a ≤ msgKeyD b

instance : DecidableRel keyLe := fun a b =>
  inferInstanceAs (Decidable (msgKeyD a ≤ msgKeyD b))

instance : IsTotal SlackMsg keyLe := ⟨fun a b => le_total (msgKeyD a) (msgKeyD b)⟩

instance : IsTrans SlackMsg keyLe := ⟨fun _ _ _ hab hbc => le_trans hab hbc⟩

/-- Concrete messages whose timestamp keys sort numerically ("9.5" before
"10.2") but not lexicographically. -/
def msg95 : SlackMsg := ⟨some "9.5", none, none, some "u1", some "hello", []⟩

def msg102 : SlackMsg := ⟨some "10.2", none, none, some "u2", some "world", []⟩

/-- The filter of `mapMessagesToContext`: drop bot messages, optionally the
triggering message, optionally thread replies. -/
def keepMessage (currentTs : String) (excludeCurrentTs excludeThreadMessages : Bool)
    (m : SlackMsg) : Bool :=
  if truthyOpt m.bot_id then false
  else if excludeCurrentTs && (m.ts == some currentTs) then false
  else if excludeThreadMessages && truthyOpt m.thread_ts then false
  else true

/-- The messages that survive sorting and filtering, in output order. -/
def survivingMessages (messages : List SlackMsg) (currentTs : String)
    (excludeCurrentTs excludeThreadMessages : Bool) : List SlackMsg :=
  (List.insertionSort jsLeProp messages).filter
    (keepMessage currentTs excludeCurrentTs excludeThreadMessages)

/-- The rendered context line of one message; `formatSlackTimestamp` uses the
locale-dependent `toLocaleTimeString` and is taken as a parameter. -/
def renderMessage (fmtTime : Option String → String) (m : SlackMsg) : String :=
  let fileSuffix :=
    if m.files.isEmpty then ""
    else " " ++ String.intercalate ", " (m.files.map describeSlackFile)
  "[" ++ fmtTime m.ts ++ "] " ++ orDefault m.user "unknown" ++ ": " ++
    orDefault m.text "" ++ fileSuffix

/-- The per-message `fileMap.set(file.id, file)` collection step. -/
def collectMsgFiles (fm : List (String × SlackFile)) (m : SlackMsg) :
    List (String × SlackFile) :=
  m.files.foldl
    (fun acc f => if truthyOpt f.id then jsMapSet (f.id.getD "") f acc else acc) fm

/-- `mapMessagesToContext`: sort by numeric timestamp, filter, render lines
and accumulate the file map. -/
def mapMessagesToContext (fmtTime : Option String → String)
    (messages : List SlackMsg) (currentTs : String)
    (fileMap : List (String × SlackFile))
    (excludeCurrentTs excludeThreadMessages : Bool) :
    List String × List (String × SlackFile) :=
  let surviving := survivingMessages messages currentTs excludeCurrentTs excludeThreadMessages
  (surviving.map (renderMessage fmtTime), surviving.foldl collectMsgFiles fileMap)

/-! ## src/api/index.ts: the route handlers

The handlers are embedded as pure functions.  `JSON.parse` and
`URLSearchParams` are modelled by passing the parsed fields alongside the
raw body bytes; response JSON bodies are abstracted to short tags; the task
pipeline and outbound POSTs are observed as counts/traces rather than
executed. -/

/-- The fields of `body.event` that `app.post("/slack/events")` reads. -/
structure SlackEventPayload where
  type : String
  channel_type : Option String
  text : Option String
  bot_id : Option String
deriving DecidableEq

/-- The fields of the parsed request body that `app.post("/slack/events")`
reads. -/
structure SlackEventsBody where
  type : String
  challenge : Option String
  event : Option SlackEventPayload
deriving DecidableEq

/-- The `app.post("/slack/events")` handler of src/api/index.ts lines
10-108.  Steps, in source order: missing-header check; replay check via
`parseInt` (an unparsable timestamp gives `NaN`, and `NaN > 300` is false,
so it passes this check — JS semantics); recomputed-signature `!==`
comparison; `url_verification` echo; `event_callback` dispatch, where an
absent `event` makes `slackEvent.type` throw inside the `try` (the catch
answers 500), an `app_mention` or a qualifying `im` message schedules the
task pipeline once via `waitUntil`, and everything else is acknowledged.
Returns ((status, body tag), number of pipeline invocations scheduled).
No idempotency store is consulted anywhere — the handler takes no store
state at all. -/
def handleSlackEvents (rawBody : List Nat)
    (signature timestamp signingSecret : Option (List Nat))
    (nowSeconds : Int) (body : SlackEventsBody) : (Nat × String) × Nat :=
  if isFalsyStr signature || isFalsyStr timestamp || isFalsyStr signingSecret then
    ((401, "Unauthorized"), 0)
  else
    let replayReject :=
      match jsParseInt (timestamp.getD []) with
      | none => false
      | some requestTime => decide ((60 * 5 : Nat) < (nowSeconds - requestTime).natAbs)
    if replayReject then ((401, "Request timeout"), 0)
    else if buildSlackSignature rawBody (timestamp.getD []) (signingSecret.getD []) ≠
        signature.getD [] then
      ((401, "Invalid signature"), 0)
    else if body.type = "url_verification" then ((200, "challenge"), 0)
    else if body.type = "event_callback" then
      match body.event with
      | none => ((500, "Internal server error"), 0)
      | some slackEvent =>
        if slackEvent.type = "app_mention" then ((200, "ok"), 1)
        else if slackEvent.type = "message" then
          if slackEvent.channel_type == some "im" && truthyOpt slackEvent.text &&
              !truthyOpt slackEvent.bot_id then
            ((200, "ok"), 1)
          else ((200, "ok"), 0)
        else ((200, "ok"), 0)
    else ((200, "ok"), 0)

/-- The `URLSearchParams` fields read by `app.post("/slack/slash-command")`,
each already `|| ""`-defaulted as in the source. -/
structure SlashCommandParams where
  text : String
  user_id : String
  channel_id : String
  command : String
  response_url : String
deriving DecidableEq

/-- The `app.post("/slack/slash-command")` handler of src/api/index.ts lines
111-165.  Missing-header check, recomputed-signature `!==` comparison (this
route has no replay-window check), then the `/task` branch schedules
`processTaskAsync` via `waitUntil` — which unconditionally POSTs its result
to `response_url` (src/api/index.ts line 794; likewise part_000 line 273) —
and immediately answers 200 with the ephemeral processing message.  No call
to `isValidSlackResponseUrl` occurs anywhere in the flow.  Returns
((status, body tag), outbound POST targets of the scheduled task). -/
def handleSlashCommandPost (rawBody : List Nat)
    (signature timestamp signingSecret : Option (List Nat))
    (params : SlashCommandParams) : (Nat × String) × List String :=
  if isFalsyStr signature || isFalsyStr timestamp || isFalsyStr signingSecret then
    ((401, "Unauthorized"), [])
  else if buildSlackSignature rawBody (timestamp.getD []) (signingSecret.getD []) ≠
      signature.getD [] then
    ((401, "Invalid signature"), [])
  else if params.command = "/task" then
    ((200, "processing"), [params.response_url])
  else ((200, "unknown command"), [])

/-- Concrete event delivery: secret "s", timestamp "100", an `app_mention`
`event_callback`, and the correctly computed signature for it. -/
def evSecret : List Nat := [115]

def evTs : List Nat := [49, 48, 48]

def evRawBody : List Nat := [123, 125]

def evSig : List Nat := buildSlackSignature evRawBody evTs evSecret

def evBody : SlackEventsBody :=
  ⟨"event_callback", none, some ⟨"app_mention", none, some "fix the bug", none⟩⟩

/-- Concrete slash-command delivery whose `response_url` fails the
allow-list check (plain HTTP on the allow-listed host). -/
def badResponseUrl : String := "http://hooks.slack.com/commands/T1"

def cmdSecret : List Nat := [115]

def cmdTs : List Nat := [50, 48, 48]

def cmdRawBody : List Nat := [99, 61, 49]

def cmdSig : List Nat := buildSlackSignature cmdRawBody cmdTs cmdSecret

def cmdParams : SlashCommandParams :=
  ⟨"fix checkout", "U1", "C1", "/task", badResponseUrl⟩

/-! ## Lemmas about the JavaScript map model -/

theorem jsMapGet_nil {α : Type} (k : String) : jsMapGet k ([] : List (String × α)) = none := rfl

theorem jsMapGet_cons {α : Type} (k : String) (e : String × α) (t : List (String × α)) :
    jsMapGet k (e :: t) = if e.1 == k then some e.2 else jsMapGet k t := by
  by_cases h : e.1 == k
  · rw [if_pos h]
    unfold jsMapGet
    simp only [List.find?_cons, h]
    rfl
  · have h' : (e.1 == k) = false := by simpa using h
    rw [if_neg h]
    unfold jsMapGet
    simp only [List.find?_cons, h']

theorem jsMapHasKey_cons {α : Type} (k : String) (e : String × α) (t : List (String × α)) :
    jsMapHasKey k (e :: t) = (e.1 == k || jsMapHasKey k t) := by
  unfold jsMapHasKey
  rw [List.any_cons]

theorem jsMapHasKey_eq_isSome {α : Type} (k : String) (l : List (String × α)) :
    jsMapHasKey k l = (jsMapGet k l).isSome := by
  induction l with
  | nil => rfl
  | cons e t ih =>
    rw [jsMapHasKey_cons, jsMapGet_cons]
    by_cases h : e.1 == k
    · simp [h]
    · have h' : (e.1 == k) = false := by simpa using h
      simp [h', ih]

theorem jsMapGet_map_update {α : Type} (k : String) (v : α) (l : List (String × α))
    (hk : jsMapHasKey k l = true) :
    jsMapGet k (l.map fun e => if e.1 == k then (k, v) else e) = some v := by
  induction l with
  | nil => simp [jsMapHasKey] at hk
  | cons e t ih =>
    simp only [List.map_cons]
    by_cases h : e.1 == k
    · rw [if_pos h, jsMapGet_cons]
      simp
    · rw [if_neg h, jsMapGet_cons, if_neg h]
      have hk' : jsMapHasKey k t = true := by
        rw [jsMapHasKey_cons] at hk
        rcases Bool.or_eq_true_iff.mp hk with h1 | h1
        · exact absurd h1 h
        · exact h1
      exact ih hk'

theorem jsMapGet_map_update_ne {α : Type} {k k' : String} (h : k' ≠ k) (v : α)
    (l : List (String × α)) :
    jsMapGet k' (l.map fun e => if e.1 == k then (k, v) else e) = jsMapGet k' l := by
  induction l with
  | nil => rfl
  | cons e t ih =>
    simp only [List.map_cons]
    rw [jsMapGet_cons, jsMapGet_cons]
    by_cases he : e.1 == k
    · rw [if_pos he]
      have he' : e.1 = k := by simpa using he
      have h1 : (((k, v) : String × α).1 == k') = false := by
        simp only [beq_eq_false_iff_ne, ne_eq]
        exact fun hx => h hx.symm
      have h2 : (e.1 == k') = false := by
        simp only [beq_eq_false_iff_ne, ne_eq, he']
        exact fun hx => h hx.symm
      rw [h1, h2]
      simpa using ih
    · rw [if_neg he]
      by_cases he2 : e.1 == k'
      · rw [he2]
        simp
      · have he2' : (e.1 == k') = false := by simpa using he2
        rw [he2']
        simpa using ih

theorem jsMapGet_of_hasKey_false {α : Type} {k : String} {l : List (String × α)}
    (h : ¬jsMapHasKey k l = true) : jsMapGet k l = none := by
  rw [jsMapHasKey_eq_isSome] at h
  cases hg : jsMapGet k l with
  | none => rfl
  | some w => rw [hg] at h; simp at h

theorem jsMapGet_append {α : Type} (k : String) (l1 l2 : List (String × α)) :
    jsMapGet k (l1 ++ l2) =
      (match jsMapGet k l1 with
       | some v => some v
       | none => jsMapGet k l2) := by
  induction l1 with
  | nil => simp [jsMapGet_nil]
  | cons e t ih =>
    rw [List.cons_append, jsMapGet_cons, jsMapGet_cons]
    by_cases h : e.1 == k
    · rw [if_pos h, if_pos h]
    · rw [if_neg h, if_neg h, ih]

theorem jsMapGet_set_self {α : Type} (k : String) (v : α) (l : List (String × α)) :
    jsMapGet k (jsMapSet k v l) = some v := by
  unfold jsMapSet
  by_cases h : jsMapHasKey k l
  · rw [if_pos h]
    exact jsMapGet_map_update k v l h
  · rw [if_neg h, jsMapGet_append, jsMapGet_of_hasKey_false h, jsMapGet_cons]
    simp

theorem jsMapGet_set_ne {α : Type} {k k' : String} (h : k' ≠ k) (v : α)
    (l : List (String × α)) :
    jsMapGet k' (jsMapSet k v l) = jsMapGet k' l := by
  unfold jsMapSet
  by_cases hk : jsMapHasKey k l
  · rw [if_pos hk]
    exact jsMapGet_map_update_ne h v l
  · rw [if_neg hk, jsMapGet_append]
    have hone : jsMapGet k' ([(k, v)] : List (String × α)) = none := by
      rw [jsMapGet_cons]
      have : ((k, v).1 == k') = false := by
        simp only [beq_eq_false_iff_ne, ne_eq]
        exact fun hx => h hx.symm
      rw [this]
      simp [jsMapGet_nil]
    rw [hone]
    cases jsMapGet k' l <;> rfl

theorem jsMapHasKey_set_self {α : Type} (k : String) (v : α) (l : List (String × α)) :
    jsMapHasKey k (jsMapSet k v l) = true := by
  rw [jsMapHasKey_eq_isSome, jsMapGet_set_self]; rfl

theorem jsMapHasKey_set_ne {α : Type} {k k' : String} (h : k' ≠ k) (v : α)
    (l : List (String × α)) :
    jsMapHasKey k' (jsMapSet k v l) = jsMapHasKey k' l := by
  rw [jsMapHasKey_eq_isSome, jsMapHasKey_eq_isSome, jsMapGet_set_ne h]

theorem mem_jsMapSet {α : Type} {e : String × α} {k : String} {v : α}
    {l : List (String × α)} (h : e ∈ jsMapSet k v l) : e ∈ l ∨ e = (k, v) := by
  unfold jsMapSet at h
  by_cases hk : jsMapHasKey k l
  · rw [if_pos hk] at h
    rw [List.mem_map] at h
    obtain ⟨x, hx, hfx⟩ := h
    by_cases hxk : x.1 == k
    · right; rw [if_pos hxk] at hfx; exact hfx.symm
    · left; rw [if_neg hxk] at hfx; rw [← hfx]; exact hx
  · rw [if_neg hk] at h
    rw [List.mem_append, List.mem_singleton] at h
    exact h

theorem jsMapSet_keyVals {α : Type} (k : String) (v : α) (l : List (String × α)) :
    ∀ e ∈ jsMapSet k v l, e.1 = k → e.2 = v := by
  intro e he hek
  unfold jsMapSet at he
  by_cases hk : jsMapHasKey k l
  · rw [if_pos hk] at he
    rw [List.mem_map] at he
    obtain ⟨x, hx, hfx⟩ := he
    by_cases hxk : x.1 == k
    · rw [if_pos hxk] at hfx; rw [← hfx]
    · rw [if_neg hxk] at hfx
      subst hfx
      exact absurd (by simp [hek]) hxk
  · rw [if_neg hk] at he
    rw [List.mem_append, List.mem_singleton] at he
    rcases he with hmem | rfl
    · exfalso
      refine hk ?_
      unfold jsMapHasKey
      rw [List.any_eq_true]
      exact ⟨e, hmem, by simp [hek]⟩
    · rfl

namespace InMemoryIdempotencyStore

theorem prune_eq_self {t : Nat} {l : List (String × Nat)}
    (h : ∀ e ∈ l, t < e.2) : prune t l = l := by
  unfold prune
  rw [List.filter_eq_self]
  intro e he
  simpa using h e he

theorem mem_prune {t : Nat} {e : String × Nat} {l : List (String × Nat)}
    (h : e ∈ prune t l) : e ∈ l ∧ t < e.2 := by
  unfold prune at h
  have := List.of_mem_filter h
  exact ⟨List.mem_of_mem_filter h, by simpa using this⟩

theorem jsMapGet_prune_none {k : String} {v t : Nat} {l : List (String × Nat)}
    (hkv : ∀ e ∈ l, e.1 = k → e.2 = v) (hv : v ≤ t) :
    jsMapGet k (prune t l) = none := by
  unfold jsMapGet
  rw [Option.map_eq_none', List.find?_eq_none]
  intro e he
  obtain ⟨hmem, ht⟩ := mem_prune he
  intro hbeq
  have hek : e.1 = k := by simpa using hbeq
  have := hkv e hmem hek
  omega

theorem jsMapGet_prune_some {k : String} {v t : Nat} :
    ∀ {l : List (String × Nat)},
      (∀ e ∈ l, e.1 = k → e.2 = v) → jsMapHasKey k l = true → t < v →
      jsMapGet k (prune t l) = some v := by
  intro l
  induction l with
  | nil => intro _ hk _; simp [jsMapHasKey] at hk
  | cons e tl ih =>
    intro hkv hk hv
    by_cases he : e.1 = k
    · have hev : e.2 = v := hkv e (List.mem_cons_self e tl) he
      have hkeep : decide (t < e.2) = true := by simp [hev, hv]
      simp only [prune, List.filter_cons, hkeep, if_true]
      unfold jsMapGet
      rw [List.find?_cons_of_pos _ (by simp [he])]
      simp [hev]
    · have hk' : jsMapHasKey k tl = true := by
        simp only [jsMapHasKey, List.any_cons] at hk
        rcases Bool.or_eq_true_iff.mp hk with h1 | h1
        · exact absurd (by simpa using h1) he
        · exact h1
      have hkv' : ∀ x ∈ tl, x.1 = k → x.2 = v := fun x hx => hkv x (List.mem_cons_of_mem e hx)
      have tail := ih hkv' hk' hv
      by_cases hkeep : decide (t < e.2) = true
      · simp only [prune, List.filter_cons, hkeep, if_true]
        unfold jsMapGet at tail ⊢
        rw [List.find?_cons_of_neg _ (by simp [he])]
        exact tail
      · simp only [prune, List.filter_cons, hkeep, Bool.false_eq_true, if_false]
        exact tail

theorem jsMapGet_prune_set (k : String) (v t : Nat) (l : List (String × Nat)) :
    jsMapGet k (prune t (jsMapSet k v l)) = if t < v then some v else none := by
  by_cases h : t < v
  · rw [if_pos h]
    exact jsMapGet_prune_some (jsMapSet_keyVals k v l) (jsMapHasKey_set_self k v l) h
  · rw [if_neg h]
    exact jsMapGet_prune_none (jsMapSet_keyVals k v l) (by omega)

/-- Heart of the ttl behaviour: right after `add key t`, `has key tq` answers
exactly "is `tq` before the expiry `t + ttl`". -/
theorem has_add_self (ttlMs maxSize : Nat) (key : String) (t tq : Nat)
    (st : List (String × Nat)) :
    (has key tq (add ttlMs maxSize key t st)).1 = decide (tq < t + ttlMs) := by
  simp only [has, add]
  rw [jsMapGet_prune_set]
  by_cases h : tq < t + ttlMs
  · rw [if_pos h]
    have h0 : ¬(t + ttlMs = 0) := by omega
    have h1 : ¬(t + ttlMs ≤ tq) := by omega
    simp [h0, h1, h]
  · rw [if_neg h]
    simp [h]

theorem jsMapHasKey_eq_false_of_fresh {k : String} {l : List (String × Nat)}
    (h : ∀ e ∈ l, k ≠ e.1) : jsMapHasKey k l = false := by
  unfold jsMapHasKey
  rw [List.any_eq_false]
  intro e he
  simp only [beq_iff_eq]
  exact fun hx => h e he hx.symm

/-- `add` on a fresh key with capacity to spare and nothing to prune is a
plain append. -/
theorem add_fresh {ttlMs maxSize : Nat} {k : String} {t : Nat}
    {st : List (String × Nat)}
    (hprune : ∀ e ∈ st, t < e.2)
    (hlen : st.length < maxSize)
    (hfresh : ∀ e ∈ st, k ≠ e.1) :
    add ttlMs maxSize k t st = st ++ [(k, t + ttlMs)] := by
  simp only [add]
  rw [prune_eq_self hprune, if_neg (by omega)]
  unfold jsMapSet
  rw [jsMapHasKey_eq_false_of_fresh hfresh]
  simp

/-- `add` on a fresh key at capacity with nothing to prune evicts exactly the
head entry (when its key is non-empty and unique) and appends. -/
theorem add_evict {ttlMs maxSize : Nat} {k : String} {t : Nat}
    {e0 : String × Nat} {tl : List (String × Nat)}
    (hprune : ∀ e ∈ e0 :: tl, t < e.2)
    (hlen : maxSize ≤ (e0 :: tl).length)
    (hk0 : e0.1 ≠ "")
    (hk0tl : ∀ e ∈ tl, e0.1 ≠ e.1)
    (hfresh : ∀ e ∈ e0 :: tl, k ≠ e.1) :
    add ttlMs maxSize k t (e0 :: tl) = tl ++ [(k, t + ttlMs)] := by
  simp only [add]
  rw [prune_eq_self hprune, if_pos hlen]
  simp only [List.head?_cons]
  rw [if_neg hk0]
  have hdel : jsMapDelete e0.1 (e0 :: tl) = tl := by
    unfold jsMapDelete
    rw [List.filter_cons]
    have h1 : (e0.1 != e0.1) = false := by simp
    rw [h1]
    simp only [Bool.false_eq_true, if_false]
    rw [List.filter_eq_self]
    intro e he
    simp only [bne_iff_ne, ne_eq]
    exact fun hx => hk0tl e he hx.symm
  rw [hdel]
  unfold jsMapSet
  rw [jsMapHasKey_eq_false_of_fresh fun e he => hfresh e (List.mem_cons_of_mem e0 he)]
  simp

/-- Running a batch of fresh, mutually-distinct, non-expiring `add`s below
capacity appends the corresponding entries in order. -/
theorem addAll_no_evict (ttlMs maxSize : Nat) :
    ∀ (ops : List (String × Nat)) (st : List (String × Nat)),
      st.length + ops.length ≤ maxSize →
      (∀ e ∈ st, ∀ op ∈ ops, op.2 < e.2) →
      (∀ op ∈ ops, ∀ e ∈ st, op.1 ≠ e.1) →
      (ops.Pairwise fun a b => a.1 ≠ b.1) →
      (∀ a ∈ ops, ∀ b ∈ ops, b.2 < a.2 + ttlMs) →
      addAll ttlMs maxSize ops st = st ++ ops.map fun o => (o.1, o.2 + ttlMs) := by
  intro ops
  induction ops with
  | nil => intro st _ _ _ _ _; simp [addAll]
  | cons op rest ih =>
    intro st hlen hexp hfresh hpw hwin
    have hstep : add ttlMs maxSize op.1 op.2 st = st ++ [(op.1, op.2 + ttlMs)] :=
      add_fresh
        (fun e he => hexp e he op (List.mem_cons_self op rest))
        (by simp at hlen; omega)
        (fun e he => hfresh op (List.mem_cons_self op rest) e he)
    have hall : addAll ttlMs maxSize (op :: rest) st =
        addAll ttlMs maxSize rest (add ttlMs maxSize op.1 op.2 st) := rfl
    rw [hall, hstep]
    have hrec := ih (st ++ [(op.1, op.2 + ttlMs)])
      (by simp at hlen ⊢; omega)
      (by
        intro e he op' hop'
        rcases List.mem_append.mp he with h1 | h1
        · exact hexp e h1 op' (List.mem_cons_of_mem op hop')
        · rw [List.mem_singleton] at h1
          subst h1
          exact hwin op (List.mem_cons_self op rest) op' (List.mem_cons_of_mem op hop'))
      (by
        intro op' hop' e he
        rcases List.mem_append.mp he with h1 | h1
        · exact hfresh op' (List.mem_cons_of_mem op hop') e h1
        · rw [List.mem_singleton] at h1
          subst h1
          exact fun hx => ((List.pairwise_cons.mp hpw).1 op' hop') hx.symm)
      ((List.pairwise_cons.mp hpw).2)
      (fun a ha b hb =>
        hwin a (List.mem_cons_of_mem op ha) b (List.mem_cons_of_mem op hb))
    rw [hrec]
    simp

theorem addAll_append (ttlMs maxSize : Nat) (l1 l2 : List (String × Nat))
    (st : List (String × Nat)) :
    addAll ttlMs maxSize (l1 ++ l2) st = addAll ttlMs maxSize l2 (addAll ttlMs maxSize l1 st) := by
  unfold addAll
  rw [List.foldl_append]

/-! ### Size invariant machinery -/

theorem goodState_prune {maxSize t : Nat} {st : List (String × Nat)}
    (h : goodState maxSize st) : goodState maxSize (prune t st) :=
  ⟨fun e he => h.1 e (mem_prune he).1,
   le_trans (List.length_filter_le _ _) h.2⟩

theorem goodState_jsMapDelete {maxSize : Nat} {k : String} {st : List (String × Nat)}
    (h : goodState maxSize st) : goodState maxSize (jsMapDelete k st) :=
  ⟨fun e he => h.1 e (List.mem_of_mem_filter he),
   le_trans (List.length_filter_le _ _) h.2⟩

theorem goodState_has {maxSize : Nat} (k : String) (t : Nat)
    {st : List (String × Nat)} (h : goodState maxSize st) :
    goodState maxSize (has k t st).2 := by
  cases hg : jsMapGet k (prune t st) with
  | none =>
    have heq : (has k t st).2 = prune t st := by
      simp only [has]; rw [hg]
    rw [heq]
    exact goodState_prune h
  | some expiresAt =>
    by_cases h0 : expiresAt = 0
    · have heq : (has k t st).2 = prune t st := by
        simp only [has]; rw [hg]; simp [h0]
      rw [heq]
      exact goodState_prune h
    · by_cases hle : expiresAt ≤ t
      · have heq : (has k t st).2 = jsMapDelete k (prune t st) := by
          simp only [has]; rw [hg]; simp [h0, hle]
        rw [heq]
        exact goodState_jsMapDelete (goodState_prune h)
      · have heq : (has k t st).2 = prune t st := by
          simp only [has]; rw [hg]; simp [h0, hle]
        rw [heq]
        exact goodState_prune h

theorem goodState_add {ttlMs maxSize : Nat} {k : String} {t : Nat}
    {st : List (String × Nat)} (hm : 1 ≤ maxSize) (hk : k ≠ "")
    (h : goodState maxSize st) : goodState maxSize (add ttlMs maxSize k t st) := by
  simp only [add]
  have hpr : goodState maxSize (prune t st) := goodState_prune h
  set pruned := prune t st with hpruned
  have hAfter : ∃ after : List (String × Nat),
      (if maxSize ≤ pruned.length then
        match pruned.head? with
        | some oldest => if oldest.1 = "" then pruned else jsMapDelete oldest.1 pruned
        | none => pruned
      else pruned) = after ∧
      (∀ e ∈ after, e.1 ≠ "") ∧ after.length + 1 ≤ maxSize := by
    by_cases hcap : maxSize ≤ pruned.length
    · rw [if_pos hcap]
      cases hp : pruned with
      | nil =>
        rw [hp] at hcap
        simp at hcap
        omega
      | cons e0 tl =>
        simp only [List.head?_cons]
        have he0 : e0.1 ≠ "" := hpr.1 e0 (by rw [hp]; exact List.mem_cons_self e0 tl)
        rw [if_neg he0]
        refine ⟨jsMapDelete e0.1 (e0 :: tl), rfl, ?_, ?_⟩
        · intro e he
          exact hpr.1 e (by rw [hp]; exact List.mem_of_mem_filter he)
        · have hlen : (jsMapDelete e0.1 (e0 :: tl)).length ≤ tl.length := by
            unfold jsMapDelete
            rw [List.filter_cons]
            have h1 : (e0.1 != e0.1) = false := by simp
            rw [h1]
            simp only [Bool.false_eq_true, if_false]
            exact List.length_filter_le _ _
          have hplen : pruned.length ≤ maxSize := hpr.2
          rw [hp] at hplen
          simp only [List.length_cons] at hplen
          omega
    · rw [if_neg hcap]
      exact ⟨pruned, rfl, hpr.1, by omega⟩
  obtain ⟨after, hEq, hKeys, hLen⟩ := hAfter
  rw [hEq]
  constructor
  · intro e he
    rcases mem_jsMapSet he with h1 | rfl
    · exact hKeys e h1
    · exact hk
  · have : (jsMapSet k (t + ttlMs) after).length ≤ after.length + 1 := by
      unfold jsMapSet
      by_cases hx : jsMapHasKey k after
      · rw [if_pos hx, List.length_map]; omega
      · rw [if_neg hx, List.length_append]; simp
    omega

theorem goodState_runOps (ttlMs maxSize : Nat) :
    ∀ (ops : List StoreOp) (st : List (String × Nat)),
      goodState maxSize st → 1 ≤ maxSize →
      (∀ op ∈ ops, ∀ k t, op = StoreOp.addOp k t → k ≠ "") →
      goodState maxSize (runOps ttlMs maxSize ops st) := by
  intro ops
  induction ops with
  | nil => intro st h _ _; exact h
  | cons op rest ih =>
    intro st h hm hkeys
    cases op with
    | addOp k t =>
      have hk : k ≠ "" := hkeys (StoreOp.addOp k t) (List.mem_cons_self _ _) k t rfl
      have hall : runOps ttlMs maxSize (StoreOp.addOp k t :: rest) st =
          runOps ttlMs maxSize rest (add ttlMs maxSize k t st) := rfl
      rw [hall]
      exact ih _ (goodState_add hm hk h) hm fun o ho => hkeys o (List.mem_cons_of_mem _ ho)
    | hasOp k t =>
      have hall : runOps ttlMs maxSize (StoreOp.hasOp k t :: rest) st =
          runOps ttlMs maxSize rest (has k t st).2 := rfl
      rw [hall]
      exact ih _ (goodState_has k t h) hm fun o ho => hkeys o (List.mem_cons_of_mem _ ho)

end InMemoryIdempotencyStore

/-! ## Claim C6 -/

/-- Claim C6, as stated, is false on the code: adding `maxSize + 1 = 2`
distinct keys (all within ttl) with the empty string inserted first does not
evict the first-inserted key (the eviction step skips falsy keys), leaving
both keys stored; and with `maxSize = 0`, adding one key leaves it stored
rather than evicting it. -/
theorem idempotency_eviction_claim_cex :
    (InMemoryIdempotencyStore.addAll 1000 1 [("", 0), ("a", 1)] []).length = 2
    ∧ (InMemoryIdempotencyStore.has ""
        2 (InMemoryIdempotencyStore.addAll 1000 1 [("", 0), ("a", 1)] [])).1 = true
    ∧ (InMemoryIdempotencyStore.has "a"
        1 (InMemoryIdempotencyStore.addAll 1000 0 [("a", 0)] [])).1 = true
    ∧ (InMemoryIdempotencyStore.addAll 1000 0 [("a", 0)] []).length = 1 :=
  ⟨rfl, rfl, rfl, rfl⟩

/-- Claim C6 (amended): after `add(K, t)` with no intervening operations,
`has(K, t')` is true for `t ≤ t' < t + ttl` and false for `t' ≥ t + ttl`;
and — provided `maxSize ≥ 1` and the keys are non-empty strings — adding
`maxSize + 1` distinct keys, all within ttl of each other, evicts exactly the
first-inserted key, leaving the later `maxSize` keys stored in order. -/
theorem idempotency_ttl_and_eviction (ttlMs maxSize : Nat) :
    (∀ (st : List (String × Nat)) (k : String) (t tq : Nat),
        (t ≤ tq → tq < t + ttlMs →
          (InMemoryIdempotencyStore.has k tq
            (InMemoryIdempotencyStore.add ttlMs maxSize k t st)).1 = true)
      ∧ (t + ttlMs ≤ tq →
          (InMemoryIdempotencyStore.has k tq
            (InMemoryIdempotencyStore.add ttlMs maxSize k t st)).1 = false))
    ∧ (∀ (front : List (String × Nat)) (lastOp : String × Nat),
        1 ≤ maxSize → front.length = maxSize →
        ((front ++ [lastOp]).Pairwise fun a b => a.1 ≠ b.1) →
        (∀ op ∈ front ++ [lastOp], op.1 ≠ "") →
        (∀ a ∈ front ++ [lastOp], ∀ b ∈ front ++ [lastOp], b.2 < a.2 + ttlMs) →
        InMemoryIdempotencyStore.addAll ttlMs maxSize (front ++ [lastOp]) [] =
          (front.drop 1 ++ [lastOp]).map fun o => (o.1, o.2 + ttlMs)) := by
  constructor
  · intro st k t tq
    constructor
    · intro _ hlt
      rw [InMemoryIdempotencyStore.has_add_self]
      exact decide_eq_true hlt
    · intro hge
      rw [InMemoryIdempotencyStore.has_add_self]
      exact decide_eq_false (by omega)
  · intro front lastOp hm hlen hpw hkeys hwin
    cases front with
    | nil => simp at hlen; omega
    | cons f0 front1 =>
      have hpw' : ((f0 :: (front1 ++ [lastOp])).Pairwise fun a b => a.1 ≠ b.1) := hpw
      obtain ⟨hf0, hpw1⟩ := List.pairwise_cons.mp hpw'
      have hpwFront : ((f0 :: front1).Pairwise fun a b => a.1 ≠ b.1) :=
        hpw.sublist (List.sublist_append_left _ _)
      have hmemF : ∀ o ∈ f0 :: front1, o ∈ (f0 :: front1) ++ [lastOp] :=
        fun o ho => List.mem_append_left _ ho
      have hmemL : lastOp ∈ (f0 :: front1) ++ [lastOp] :=
        List.mem_append_right _ (List.mem_singleton_self _)
      rw [InMemoryIdempotencyStore.addAll_append]
      have hfill : InMemoryIdempotencyStore.addAll ttlMs maxSize (f0 :: front1) [] =
          (f0 :: front1).map fun o => (o.1, o.2 + ttlMs) := by
        have := InMemoryIdempotencyStore.addAll_no_evict ttlMs maxSize (f0 :: front1) []
          (by simp at hlen ⊢; omega)
          (by intro e he; exact absurd he (List.not_mem_nil e))
          (by intro op _ e he; exact absurd he (List.not_mem_nil e))
          hpwFront
          (fun a ha b hb => hwin a (hmemF a ha) b (hmemF b hb))
        simpa using this
      rw [hfill]
      have hsingle : ∀ X, InMemoryIdempotencyStore.addAll ttlMs maxSize [lastOp] X =
          InMemoryIdempotencyStore.add ttlMs maxSize lastOp.1 lastOp.2 X := fun X => rfl
      rw [hsingle]
      have hmc : ((f0 :: front1).map fun o => (o.1, o.2 + ttlMs)) =
          (f0.1, f0.2 + ttlMs) :: front1.map fun o => (o.1, o.2 + ttlMs) := rfl
      rw [hmc]
      have hprune : ∀ e ∈ (f0.1, f0.2 + ttlMs) :: (front1.map fun o => (o.1, o.2 + ttlMs)),
          lastOp.2 < e.2 := by
        intro e he
        rcases List.mem_cons.mp he with rfl | hmem
        · exact hwin f0 (hmemF f0 (List.mem_cons_self _ _)) lastOp hmemL
        · obtain ⟨o, ho, rfl⟩ := List.mem_map.mp hmem
          exact hwin o (hmemF o (List.mem_cons_of_mem _ ho)) lastOp hmemL
      have hlen2 : maxSize ≤
          ((f0.1, f0.2 + ttlMs) :: (front1.map fun o => (o.1, o.2 + ttlMs))).length := by
        simp at hlen ⊢; omega
      have hk0 : (f0.1, f0.2 + ttlMs).1 ≠ "" :=
        hkeys f0 (hmemF f0 (List.mem_cons_self _ _))
      have hk0tl : ∀ e ∈ front1.map fun o => (o.1, o.2 + ttlMs),
          (f0.1, f0.2 + ttlMs).1 ≠ e.1 := by
        intro e he
        obtain ⟨o, ho, rfl⟩ := List.mem_map.mp he
        exact hf0 o (List.mem_append_left _ ho)
      have hfresh : ∀ e ∈ (f0.1, f0.2 + ttlMs) :: (front1.map fun o => (o.1, o.2 + ttlMs)),
          lastOp.1 ≠ e.1 := by
        intro e he
        rcases List.mem_cons.mp he with rfl | hmem
        · exact fun hx => (hf0 lastOp (List.mem_append_right _ (List.mem_singleton_self _))) hx.symm
        · obtain ⟨o, ho, rfl⟩ := List.mem_map.mp hmem
          have hcross := (List.pairwise_append.mp hpw1).2.2
          exact fun hx => (hcross o ho lastOp (List.mem_singleton_self _)) hx.symm
      rw [InMemoryIdempotencyStore.add_evict hprune hlen2 hk0 hk0tl hfresh]
      simp

/-- Witness for `idempotency_ttl_and_eviction` at concrete inputs: a key
added at time 0 with ttl 100 is still present at time 50 and gone at 100. -/
theorem idempotency_ttl_and_eviction_witness :
    (InMemoryIdempotencyStore.has "k" 50
      (InMemoryIdempotencyStore.add 100 10 "k" 0 [])).1 = true
    ∧ (InMemoryIdempotencyStore.has "k" 100
      (InMemoryIdempotencyStore.add 100 10 "k" 0 [])).1 = false :=
  ⟨((idempotency_ttl_and_eviction 100 10).1 [] "k" 0 50).1 (by omega) (by omega),
   ((idempotency_ttl_and_eviction 100 10).1 [] "k" 0 100).2 (by omega)⟩

/-! ## Claim C10 -/

/-- Claim C10: with `maxSize ≥ 1` and all added keys non-empty, any sequence
of `add`/`has` calls from the empty store keeps at most `maxSize` entries;
and both hypotheses are needed — with `maxSize = 1`, adding the empty string
first and then another key leaves 2 entries, and with `maxSize = 0` a single
add leaves 1 entry. -/
theorem idempotency_size_invariant (ttlMs maxSize : Nat) :
    (∀ ops : List InMemoryIdempotencyStore.StoreOp, 1 ≤ maxSize →
        (∀ op ∈ ops, ∀ k t, op = InMemoryIdempotencyStore.StoreOp.addOp k t → k ≠ "") →
        (InMemoryIdempotencyStore.runOps ttlMs maxSize ops []).length ≤ maxSize)
    ∧ (InMemoryIdempotencyStore.runOps 1000 1
        [InMemoryIdempotencyStore.StoreOp.addOp "" 0,
         InMemoryIdempotencyStore.StoreOp.addOp "a" 0] []).length = 2
    ∧ (InMemoryIdempotencyStore.runOps 1000 0
        [InMemoryIdempotencyStore.StoreOp.addOp "a" 0] []).length = 1 := by
  refine ⟨?_, rfl, rfl⟩
  intro ops hm hkeys
  exact (InMemoryIdempotencyStore.goodState_runOps ttlMs maxSize ops []
    ⟨fun e he => absurd he (List.not_mem_nil e), by simp⟩ hm hkeys).2

/-- Witness for `idempotency_size_invariant`: one permitted add keeps the
store within a capacity of 1. -/
theorem idempotency_size_invariant_witness :
    (InMemoryIdempotencyStore.runOps 1000 1
      [InMemoryIdempotencyStore.StoreOp.addOp "a" 0] []).length ≤ 1 :=
  (idempotency_size_invariant 1000 1).1 _ (by omega)
    (by
      intro op hop k t heq
      rw [List.mem_singleton] at hop
      subst hop
      injection heq with h1 h2
      subst h1
      intro hx
      exact absurd hx (by decide))

/-! ## Retry-loop lemmas -/

/-- When all attempts before the final one are retryable, the loop walks
through every attempt and the final attempt's outcome decides the result. -/
theorem fetchGo_all_retryable (attempts : Nat → FetchOutcome) (retries : Nat)
    (h : ∀ i, i < retries → isRetryableOutcome (attempts i) = true) :
    ∀ (fuel attempt : Nat), attempt + fuel = retries + 1 → 1 ≤ fuel →
      fetchGo attempts retries fuel attempt =
        (finalOutcomeResult (attempts retries), fuel) := by
  intro fuel
  induction fuel with
  | zero => intro attempt _ hf; omega
  | succ n ihn =>
    intro attempt hsum _
    by_cases hend : attempt = retries
    · have hn0 : n = 0 := by omega
      subst hn0
      rw [hend]
      cases hout : attempts retries with
      | resolved r =>
        simp only [fetchGo]
        rw [hout]
        simp [finalOutcomeResult]
      | thrown e =>
        simp only [fetchGo]
        rw [hout]
        simp [finalOutcomeResult]
    · have hlt : attempt < retries := by omega
      have hne : (attempt == retries) = false := by simp [hend]
      have hretry := h attempt hlt
      have hn1 : 1 ≤ n := by omega
      cases hout : attempts attempt with
      | resolved r =>
        have hsr : shouldRetryStatus r.status = true := by
          rw [hout] at hretry
          simpa [isRetryableOutcome] using hretry
        simp only [fetchGo]
        rw [hout]
        simp only [hsr, hne, Bool.not_true, Bool.false_or, Bool.false_eq_true, if_false]
        rw [ihn (attempt + 1) (by omega) hn1]
      | thrown e =>
        simp only [fetchGo]
        rw [hout]
        simp only [hne, Bool.false_eq_true, if_false]
        rw [ihn (attempt + 1) (by omega) hn1]

/-! ## Claim C3 -/

/-- Claim C3, as stated, is false on the code: with `retries = 0` and the
single attempt resolving with a retryable HTTP 500 response, `fetchWithRetry`
returns that response (the promise resolves) instead of rejecting. -/
theorem retryable_exhaustion_returns_response_cex :
    isRetryableOutcome (allRetryable500 0) = true
    ∧ (fetchWithRetry allRetryable500 0).1 =
      FetchResult.returned ⟨500, "e"⟩ :=
  ⟨rfl, rfl⟩

/-- Claim C3 (amended): when every attempt before the last is retryable, all
`maxRetries + 1` attempts are made and the final attempt decides the result:
a transport-level failure on the final attempt rejects the promise with that
error, while a retryable HTTP response (429 or ≥ 500) on the final attempt is
returned to the caller. -/
theorem fetchWithRetry_all_retryable (attempts : Nat → FetchOutcome)
    (retries : Nat)
    (h : ∀ i, i < retries → isRetryableOutcome (attempts i) = true) :
    fetchWithRetry attempts retries =
      (finalOutcomeResult (attempts retries), retries + 1) := by
  unfold fetchWithRetry
  exact fetchGo_all_retryable attempts retries h (retries + 1) 0 (by omega) (by omega)

/-- Witness for `fetchWithRetry_all_retryable`: two network errors with
`retries = 1` reject with the network error after both attempts. -/
theorem fetchWithRetry_all_retryable_witness :
    fetchWithRetry alwaysNetworkError 1 = (FetchResult.threw "network down", 2) :=
  fetchWithRetry_all_retryable alwaysNetworkError 1 (fun _ _ => rfl)

/-! ## Claim C7 -/

/-- Claim C7: the [500, 500, 200] sequence with `retries = 2` yields the 200
response after exactly 3 attempts; a first response with a non-retryable
status (not 429, below 500) is returned after exactly 1 attempt for any retry
budget; and `shouldRetryStatus` holds exactly for 429 and ≥ 500. -/
theorem fetchWithRetry_retry_schedule :
    fetchWithRetry seq500scenario 2 = (FetchResult.returned ⟨200, "c"⟩, 3)
    ∧ (∀ (attempts : Nat → FetchOutcome) (retries : Nat) (r : FetchResponse),
        attempts 0 = FetchOutcome.resolved r → r.status ≠ 429 → r.status < 500 →
        fetchWithRetry attempts retries = (FetchResult.returned r, 1))
    ∧ shouldRetryStatus 400 = false ∧ shouldRetryStatus 404 = false
    ∧ shouldRetryStatus 429 = true ∧ shouldRetryStatus 500 = true
    ∧ shouldRetryStatus 503 = true ∧ shouldRetryStatus 200 = false := by
  refine ⟨rfl, ?_, rfl, rfl, rfl, rfl, rfl, rfl⟩
  intro attempts retries r h0 h429 h500
  have hsr : shouldRetryStatus r.status = false := by
    unfold shouldRetryStatus
    rw [Bool.or_eq_false_iff]
    exact ⟨beq_eq_false_iff_ne.mpr h429, decide_eq_false (by omega)⟩
  unfold fetchWithRetry
  simp only [fetchGo]
  rw [h0]
  simp [hsr]

/-- Witness for `fetchWithRetry_retry_schedule`: a first 400 response is
returned after exactly one attempt even with 3 retries available. -/
theorem fetchWithRetry_retry_schedule_witness :
    fetchWithRetry always400 3 = (FetchResult.returned ⟨400, "d"⟩, 1) :=
  fetchWithRetry_retry_schedule.2.1 always400 3 ⟨400, "d"⟩ rfl (by decide) (by decide)

/-! ## Signature-verification lemmas -/

theorem jsParseInt_nil : jsParseInt [] = none := rfl

theorem ne_nil_of_jsParseInt {ts : List Nat} {rt : Int}
    (h : jsParseInt ts = some rt) : ts ≠ [] := by
  intro hnil
  rw [hnil, jsParseInt_nil] at h
  exact Option.noConfusion h

theorem isFalsyStr_of_ne_nil {s : List Nat} (h : s ≠ []) :
    isFalsyStr (some s) = false := by
  cases s with
  | nil => exact absurd rfl h
  | cons a l => rfl

/-- The three leading checks of `verifySlackRequestSignature` pass under
non-empty inputs, a parsing timestamp and an in-window clock, leaving only
the two signature checks. -/
theorem verify_core (rawBody sig ts secret : List Nat) (nowMs : Int)
    (maxAgeSeconds : Nat) (rt : Int)
    (hsig : sig ≠ []) (hsec : secret ≠ []) (hts : jsParseInt ts = some rt)
    (hwin : (Int.fdiv nowMs 1000 - rt).natAbs ≤ maxAgeSeconds) :
    verifySlackRequestSignature rawBody (some sig) (some ts) (some secret)
        nowMs maxAgeSeconds =
      (if jsStartsWith sig [118, 48, 61] = false then
        VerifyResult.rejected 401 "Invalid signature"
      else if constantTimeCompare (buildSlackSignature rawBody ts secret) sig = false then
        VerifyResult.rejected 401 "Invalid signature"
      else VerifyResult.ok) := by
  unfold verifySlackRequestSignature
  rw [isFalsyStr_of_ne_nil hsig, isFalsyStr_of_ne_nil (ne_nil_of_jsParseInt hts),
    isFalsyStr_of_ne_nil hsec]
  simp only [Bool.or_self, Bool.or_false, Bool.false_eq_true, if_false, Option.getD_some]
  rw [hts]
  simp only []
  rw [if_neg (by omega)]

/-- `verifySlackRequestSignature` rejects with "Request timeout" on any
out-of-window parsed timestamp, regardless of the signature content. -/
theorem verify_timeout (rawBody sig ts secret : List Nat) (nowMs : Int)
    (maxAgeSeconds : Nat) (rt : Int)
    (hsig : sig ≠ []) (hsec : secret ≠ []) (hts : jsParseInt ts = some rt)
    (hstale : maxAgeSeconds < (Int.fdiv nowMs 1000 - rt).natAbs) :
    verifySlackRequestSignature rawBody (some sig) (some ts) (some secret)
        nowMs maxAgeSeconds = VerifyResult.rejected 401 "Request timeout" := by
  unfold verifySlackRequestSignature
  rw [isFalsyStr_of_ne_nil hsig, isFalsyStr_of_ne_nil (ne_nil_of_jsParseInt hts),
    isFalsyStr_of_ne_nil hsec]
  simp only [Bool.or_self, Bool.or_false, Bool.false_eq_true, if_false, Option.getD_some]
  rw [hts]
  simp only []
  rw [if_pos (by omega)]

theorem buildSlackSignature_cons (rawBody ts secret : List Nat) :
    buildSlackSignature rawBody ts secret =
      118 :: 48 :: 61 ::
        hexOfBytes (hmacSha256 secret ([118, 48, 58] ++ ts ++ [58] ++ rawBody)) := rfl

theorem buildSlackSignature_ne_nil (rawBody ts secret : List Nat) :
    buildSlackSignature rawBody ts secret ≠ [] := by
  rw [buildSlackSignature_cons]
  exact List.cons_ne_nil _ _

/-! ## Claim C4 -/

set_option maxHeartbeats 4000000 in
/-- Claim C4: for every non-empty secret, timestamp that parses to an
in-window number, and raw body, verification of the correctly computed
signature succeeds; and changing any single byte of that signature (to any
other byte value) makes verification reject with "Invalid signature". -/
theorem signature_verification_sound_and_tamper_evident
    (rawBody ts secret : List Nat) (nowMs : Int) (maxAgeSeconds : Nat) (rt : Int)
    (hsec : secret ≠ []) (hts : jsParseInt ts = some rt)
    (hwin : (Int.fdiv nowMs 1000 - rt).natAbs ≤ maxAgeSeconds) :
    verifySlackRequestSignature rawBody
        (some (buildSlackSignature rawBody ts secret)) (some ts) (some secret)
        nowMs maxAgeSeconds = VerifyResult.ok
    ∧ ∀ (i : Nat) (hi : i < (buildSlackSignature rawBody ts secret).length)
        (c : Nat), c ≠ (buildSlackSignature rawBody ts secret).get ⟨i, hi⟩ →
        verifySlackRequestSignature rawBody
          (some ((buildSlackSignature rawBody ts secret).set i c)) (some ts)
          (some secret) nowMs maxAgeSeconds =
          VerifyResult.rejected 401 "Invalid signature" := by
  constructor
  · rw [verify_core rawBody _ ts secret nowMs maxAgeSeconds rt
      (buildSlackSignature_ne_nil rawBody ts secret) hsec hts hwin]
    have hstart : jsStartsWith (buildSlackSignature rawBody ts secret)
        [118, 48, 61] = true := by
      rw [buildSlackSignature_cons]
      simp [jsStartsWith]
    have hcmp : constantTimeCompare (buildSlackSignature rawBody ts secret)
        (buildSlackSignature rawBody ts secret) = true := by
      unfold constantTimeCompare
      rw [if_neg (by simp)]
      simp
    rw [hstart, hcmp]
    simp
  · intro i hi c hc
    have hsetne : (buildSlackSignature rawBody ts secret).set i c ≠ [] := by
      rw [Ne, List.set_eq_nil_iff]
      exact buildSlackSignature_ne_nil rawBody ts secret
    rw [verify_core rawBody _ ts secret nowMs maxAgeSeconds rt hsetne hsec hts hwin]
    rcases (by omega : i = 0 ∨ i = 1 ∨ i = 2 ∨ 3 ≤ i) with h0 | h1 | h2 | h3
    · subst h0
      have hg : (buildSlackSignature rawBody ts secret).get ⟨0, hi⟩ = 118 := rfl
      rw [hg] at hc
      have hset : (buildSlackSignature rawBody ts secret).set 0 c =
          c :: 48 :: 61 ::
            hexOfBytes (hmacSha256 secret ([118, 48, 58] ++ ts ++ [58] ++ rawBody)) := rfl
      rw [hset]
      have hstart : jsStartsWith
          (c :: 48 :: 61 ::
            hexOfBytes (hmacSha256 secret ([118, 48, 58] ++ ts ++ [58] ++ rawBody)))
          [118, 48, 61] = false := by
        simp [jsStartsWith, hc]
      rw [hstart]
      simp
    · subst h1
      have hg : (buildSlackSignature rawBody ts secret).get ⟨1, hi⟩ = 48 := rfl
      rw [hg] at hc
      have hset : (buildSlackSignature rawBody ts secret).set 1 c =
          118 :: c :: 61 ::
            hexOfBytes (hmacSha256 secret ([118, 48, 58] ++ ts ++ [58] ++ rawBody)) := rfl
      rw [hset]
      have hstart : jsStartsWith
          (118 :: c :: 61 ::
            hexOfBytes (hmacSha256 secret ([118, 48, 58] ++ ts ++ [58] ++ rawBody)))
          [118, 48, 61] = false := by
        simp [jsStartsWith, hc]
      rw [hstart]
      simp
    · subst h2
      have hg : (buildSlackSignature rawBody ts secret).get ⟨2, hi⟩ = 61 := rfl
      rw [hg] at hc
      have hset : (buildSlackSignature rawBody ts secret).set 2 c =
          118 :: 48 :: c ::
            hexOfBytes (hmacSha256 secret ([118, 48, 58] ++ ts ++ [58] ++ rawBody)) := rfl
      rw [hset]
      have hstart : jsStartsWith
          (118 :: 48 :: c ::
            hexOfBytes (hmacSha256 secret ([118, 48, 58] ++ ts ++ [58] ++ rawBody)))
          [118, 48, 61] = false := by
        simp [jsStartsWith, hc]
      rw [hstart]
      simp
    · obtain ⟨j, rfl⟩ : ∃ j, i = j + 3 := ⟨i - 3, by omega⟩
      have hset : (buildSlackSignature rawBody ts secret).set (j + 3) c =
          118 :: 48 :: 61 ::
            (hexOfBytes (hmacSha256 secret ([118, 48, 58] ++ ts ++ [58] ++ rawBody))).set j c := rfl
      have hstart : jsStartsWith
          ((buildSlackSignature rawBody ts secret).set (j + 3) c) [118, 48, 61] = true := by
        rw [hset]
        simp [jsStartsWith]
      rw [hstart]
      simp only [Bool.true_eq_false, if_false]
      have hlen : ((buildSlackSignature rawBody ts secret).set (j + 3) c).length =
          (buildSlackSignature rawBody ts secret).length := List.length_set _ _ _
      have hne_list : buildSlackSignature rawBody ts secret ≠
          (buildSlackSignature rawBody ts secret).set (j + 3) c := by
        intro heq
        apply hc
        have hi2 : j + 3 < ((buildSlackSignature rawBody ts secret).set (j + 3) c).length := by
          rw [hlen]; exact hi
        have h1 : ((buildSlackSignature rawBody ts secret).set (j + 3) c).get ⟨j + 3, hi2⟩ = c := by
          rw [List.get_eq_getElem]
          exact List.getElem_set_self hi2
        have h2 : (buildSlackSignature rawBody ts secret).get ⟨j + 3, hi⟩ = c :=
          (List.get_of_eq heq ⟨j + 3, hi⟩).trans h1
        exact h2.symm
      have hcmp : constantTimeCompare (buildSlackSignature rawBody ts secret)
          ((buildSlackSignature rawBody ts secret).set (j + 3) c) = false := by
        unfold constantTimeCompare
        rw [if_neg (by rw [hlen]; simp)]
        exact beq_eq_false_iff_ne.mpr hne_list
      rw [hcmp]
      simp

/-- Witness for `signature_verification_sound_and_tamper_evident`: concrete
secret "s", timestamp "100", empty body, clock at 100000 ms. -/
theorem signature_verification_witness :
    verifySlackRequestSignature []
      (some (buildSlackSignature [] [49, 48, 48] [115])) (some [49, 48, 48])
      (some [115]) 100000 300 = VerifyResult.ok :=
  (signature_verification_sound_and_tamper_evident [] [49, 48, 48] [115]
    100000 300 100 (by simp) rfl (by decide)).1

/-! ## Claim C5 -/

/-- Claim C5: a request whose parsed timestamp is farther than the tolerance
from the current time is rejected 401 "Request timeout" — for any supplied
non-empty signature and in particular for the correctly computed one — and
the default tolerance is 300 seconds. -/
theorem stale_timestamp_rejected (rawBody sig ts secret : List Nat)
    (nowMs : Int) (maxAgeSeconds : Nat) (rt : Int)
    (hsig : sig ≠ []) (hsec : secret ≠ []) (hts : jsParseInt ts = some rt)
    (hstale : maxAgeSeconds < (Int.fdiv nowMs 1000 - rt).natAbs) :
    verifySlackRequestSignature rawBody (some sig) (some ts) (some secret)
        nowMs maxAgeSeconds = VerifyResult.rejected 401 "Request timeout"
    ∧ verifySlackRequestSignature rawBody
        (some (buildSlackSignature rawBody ts secret)) (some ts) (some secret)
        nowMs maxAgeSeconds = VerifyResult.rejected 401 "Request timeout"
    ∧ DEFAULT_MAX_AGE_SECONDS = 300 :=
  ⟨verify_timeout rawBody sig ts secret nowMs maxAgeSeconds rt hsig hsec hts hstale,
   verify_timeout rawBody _ ts secret nowMs maxAgeSeconds rt
     (buildSlackSignature_ne_nil rawBody ts secret) hsec hts hstale,
   rfl⟩

/-- Witness for `stale_timestamp_rejected`: timestamp "100" checked 10
minutes later. -/
theorem stale_timestamp_rejected_witness :
    verifySlackRequestSignature [] (some [118, 48, 61]) (some [49, 48, 48])
      (some [115]) 700000 300 = VerifyResult.rejected 401 "Request timeout" :=
  (stale_timestamp_rejected [] [118, 48, 61] [49, 48, 48] [115] 700000 300 100
    (by simp) (by simp) rfl (by decide)).1

/-! ## File-merge lemmas -/

theorem jsMapHasKey_iff_mem_keys {α : Type} (k : String) (l : List (String × α)) :
    jsMapHasKey k l = true ↔ k ∈ l.map fun e => e.1 := by
  unfold jsMapHasKey
  rw [List.any_eq_true]
  constructor
  · rintro ⟨e, he, hbeq⟩
    rw [List.mem_map]
    exact ⟨e, he, (by simpa using hbeq : e.1 = k)⟩
  · intro hmem
    rw [List.mem_map] at hmem
    obtain ⟨e, he, hek⟩ := hmem
    exact ⟨e, he, by simp [hek]⟩

theorem keys_jsMapSet {α : Type} (k : String) (v : α) (l : List (String × α)) :
    ((jsMapSet k v l).map fun e => e.1) =
      if jsMapHasKey k l then l.map fun e => e.1 else (l.map fun e => e.1) ++ [k] := by
  unfold jsMapSet
  by_cases h : jsMapHasKey k l
  · rw [if_pos h, if_pos h, List.map_map]
    apply List.map_congr_left
    intro e _
    simp only [Function.comp_apply]
    by_cases he : e.1 == k
    · rw [if_pos he]
      exact ((by simpa using he : e.1 = k)).symm
    · rw [if_neg he]
  · rw [if_neg h, if_neg h, List.map_append]
    rfl

theorem nodup_keys_jsMapSet {α : Type} (k : String) (v : α) (l : List (String × α))
    (h : ((l.map fun e => e.1).Nodup)) : (((jsMapSet k v l).map fun e => e.1).Nodup) := by
  rw [keys_jsMapSet]
  by_cases hk : jsMapHasKey k l
  · rw [if_pos hk]; exact h
  · rw [if_neg hk]
    rw [List.nodup_append]
    refine ⟨h, List.nodup_singleton k, ?_⟩
    intro a ha hb
    rw [List.mem_singleton] at hb
    subst hb
    exact hk ((jsMapHasKey_iff_mem_keys a l).mpr ha)

theorem mergeStep_inv (acc : List (String × SlackFile)) (f : SlackFile)
    (h : ∀ e ∈ acc, keyOf e.2 = e.1) :
    ∀ e ∈ mergeStep acc f, keyOf e.2 = e.1 := by
  intro e he
  simp only [mergeStep] at he
  by_cases hid : truthyOpt f.id
  · rw [if_pos hid] at he
    rcases mem_jsMapSet he with h1 | rfl
    · exact h e h1
    · show keyOf f = f.id.getD ""
      unfold keyOf
      rw [if_pos hid]
  · rw [if_neg hid] at he
    by_cases hk : jsMapHasKey (fallbackKey f) acc
    · rw [if_pos hk] at he
      exact h e he
    · rw [if_neg hk] at he
      rcases mem_jsMapSet he with h1 | rfl
      · exact h e h1
      · show keyOf f = fallbackKey f
        unfold keyOf
        rw [if_neg hid]

theorem mergeStep_nodup (acc : List (String × SlackFile)) (f : SlackFile)
    (h : ((acc.map fun e => e.1).Nodup)) :
    (((mergeStep acc f).map fun e => e.1).Nodup) := by
  simp only [mergeStep]
  by_cases hid : truthyOpt f.id
  · rw [if_pos hid]
    exact nodup_keys_jsMapSet _ _ _ h
  · rw [if_neg hid]
    by_cases hk : jsMapHasKey (fallbackKey f) acc
    · rw [if_pos hk]; exact h
    · rw [if_neg hk]
      exact nodup_keys_jsMapSet _ _ _ h

theorem mergeFold_inv (l : List SlackFile) :
    ∀ acc, (∀ e ∈ acc, keyOf e.2 = e.1) →
      ∀ e ∈ l.foldl mergeStep acc, keyOf e.2 = e.1 := by
  induction l with
  | nil => intro acc h; exact h
  | cons g rest ih =>
    intro acc h
    exact ih (mergeStep acc g) (mergeStep_inv acc g h)

theorem mergeFold_nodup (l : List SlackFile) :
    ∀ acc, ((acc.map fun e => e.1).Nodup) →
      (((l.foldl mergeStep acc).map fun e => e.1).Nodup) := by
  induction l with
  | nil => intro acc h; exact h
  | cons g rest ih =>
    intro acc h
    exact ih (mergeStep acc g) (mergeStep_nodup acc g h)

/-- When no later file claims the key `k` as its id, the map entry at `k`
is untouched by the rest of the fold. -/
theorem mergeFold_get_frozen (k : String) :
    ∀ (l : List SlackFile) (acc : List (String × SlackFile)),
      jsMapHasKey k acc = true →
      (∀ g ∈ l, truthyOpt g.id = true → g.id.getD "" ≠ k) →
      jsMapGet k (l.foldl mergeStep acc) = jsMapGet k acc
      ∧ jsMapHasKey k (l.foldl mergeStep acc) = true := by
  intro l
  induction l with
  | nil => intro acc h _; exact ⟨rfl, h⟩
  | cons g rest ih =>
    intro acc hk hids
    have hstep : jsMapGet k (mergeStep acc g) = jsMapGet k acc
        ∧ jsMapHasKey k (mergeStep acc g) = true := by
      simp only [mergeStep]
      by_cases hid : truthyOpt g.id
      · rw [if_pos hid]
        have hne : k ≠ g.id.getD "" :=
          fun hx => (hids g (List.mem_cons_self g rest) hid) hx.symm
        exact ⟨jsMapGet_set_ne hne _ _, by rw [jsMapHasKey_set_ne hne]; exact hk⟩
      · rw [if_neg hid]
        by_cases hfk : jsMapHasKey (fallbackKey g) acc
        · rw [if_pos hfk]; exact ⟨rfl, hk⟩
        · rw [if_neg hfk]
          have hne : k ≠ fallbackKey g := by
            intro heq
            rw [heq] at hk
            exact absurd hk hfk
          exact ⟨jsMapGet_set_ne hne _ _, by rw [jsMapHasKey_set_ne hne]; exact hk⟩
    have hrest := ih (mergeStep acc g) hstep.2
      (fun g' hg' => hids g' (List.mem_cons_of_mem g hg'))
    exact ⟨hrest.1.trans hstep.1, hrest.2⟩

/-- The last file claiming an id key is the object retained at that key. -/
theorem mergeFold_last_id (f : SlackFile) (hid : truthyOpt f.id = true) :
    ∀ (post : List SlackFile) (acc : List (String × SlackFile)),
      (∀ g ∈ post, truthyOpt g.id = true → g.id.getD "" ≠ f.id.getD "") →
      jsMapGet (f.id.getD "") ((f :: post).foldl mergeStep acc) = some f := by
  intro post acc hpost
  have hstep : (f :: post).foldl mergeStep acc = post.foldl mergeStep (mergeStep acc f) := rfl
  have hset : mergeStep acc f = jsMapSet (f.id.getD "") f acc := by
    simp only [mergeStep]
    rw [if_pos hid]
  rw [hstep, hset]
  have hfrozen := mergeFold_get_frozen (f.id.getD "") post
    (jsMapSet (f.id.getD "") f acc) (jsMapHasKey_set_self _ _ _) hpost
  rw [hfrozen.1, jsMapGet_set_self]

theorem mem_values_of_jsMapGet {α : Type} {k : String} {l : List (String × α)} {v : α}
    (h : jsMapGet k l = some v) : v ∈ l.map fun e => e.2 := by
  unfold jsMapGet at h
  cases hf : l.find? fun e => e.1 == k with
  | none => rw [hf] at h; simp at h
  | some e =>
    rw [hf] at h
    simp only [Option.map_some'] at h
    rw [List.mem_map]
    exact ⟨e, List.mem_of_find?_eq_some hf, Option.some.inj h⟩

/-- A key no processed file maps to stays absent. -/
theorem mergeFold_hasKey_false (k : String) :
    ∀ (l : List SlackFile) (acc : List (String × SlackFile)),
      jsMapHasKey k acc = false → (∀ g ∈ l, keyOf g ≠ k) →
      jsMapHasKey k (l.foldl mergeStep acc) = false := by
  intro l
  induction l with
  | nil => intro acc h _; exact h
  | cons g rest ih =>
    intro acc hk hkeys
    have hgk : keyOf g ≠ k := hkeys g (List.mem_cons_self g rest)
    have hstep : jsMapHasKey k (mergeStep acc g) = false := by
      simp only [mergeStep]
      by_cases hid : truthyOpt g.id
      · rw [if_pos hid]
        have hne : k ≠ g.id.getD "" := by
          intro hx
          apply hgk
          unfold keyOf
          rw [if_pos hid]
          exact hx.symm
        rw [jsMapHasKey_set_ne hne]
        exact hk
      · rw [if_neg hid]
        by_cases hfk : jsMapHasKey (fallbackKey g) acc
        · rw [if_pos hfk]; exact hk
        · rw [if_neg hfk]
          have hne : k ≠ fallbackKey g := by
            intro hx
            apply hgk
            unfold keyOf
            rw [if_neg hid]
            exact hx.symm
          rw [jsMapHasKey_set_ne hne]
          exact hk
    exact ih (mergeStep acc g) hstep
      (fun g' hg' => hkeys g' (List.mem_cons_of_mem g hg'))

/-- The first file to claim a pure fallback key is retained at that key. -/
theorem mergeFold_first_fallback (f : SlackFile) (hid : truthyOpt f.id = false) :
    ∀ (post : List SlackFile) (acc : List (String × SlackFile)),
      jsMapHasKey (fallbackKey f) acc = false →
      (∀ g ∈ post, truthyOpt g.id = true → g.id.getD "" ≠ fallbackKey f) →
      jsMapGet (fallbackKey f) ((f :: post).foldl mergeStep acc) = some f := by
  intro post acc hacc hpost
  have hstep : (f :: post).foldl mergeStep acc = post.foldl mergeStep (mergeStep acc f) := rfl
  have hset : mergeStep acc f = jsMapSet (fallbackKey f) f acc := by
    simp only [mergeStep]
    rw [if_neg (by simp [hid]), if_neg (by simp [hacc])]
  rw [hstep, hset]
  have hfrozen := mergeFold_get_frozen (fallbackKey f) post
    (jsMapSet (fallbackKey f) f acc) (jsMapHasKey_set_self _ _ _) hpost
  rw [hfrozen.1, jsMapGet_set_self]

/-! ## Claim C8 -/

/-- Claim C8, as stated, is false on the code: `fileA` and `fileB` share the
id "F1" and arrive in that order (thread batch then current files), yet the
merged set retains `fileB` — the last occurrence — not the first-seen
object `fileA`. -/
theorem mergeFiles_first_occurrence_cex :
    mergeFiles [fileA] [fileB] = [fileB]
    ∧ fileA ∉ mergeFiles [fileA] [fileB]
    ∧ fileA.id = fileB.id
    ∧ fileA ≠ fileB := by
  refine ⟨rfl, ?_, rfl, ?_⟩
  · intro hmem
    have hmem' : fileA ∈ [fileB] := hmem
    rw [List.mem_singleton] at hmem'
    exact absurd (congrArg SlackFile.name hmem') (by decide)
  · intro heq
    exact absurd (congrArg SlackFile.name heq) (by decide)

/-- Claim C8 (amended): the merged file set never holds two entries with the
same identity key (so two references sharing an id contribute exactly one
entry); for an id key the retained object is the last occurrence; for a pure
fallback key (no reference claims it as an id) the retained object is the
first occurrence. -/
theorem mergeFiles_dedup_semantics (historyFiles currentFiles : List SlackFile) :
    ((mergeFiles historyFiles currentFiles).Pairwise fun a b => keyOf a ≠ keyOf b)
    ∧ (∀ (pre post : List SlackFile) (f : SlackFile),
        historyFiles ++ currentFiles = pre ++ f :: post →
        truthyOpt f.id = true →
        (∀ g ∈ post, truthyOpt g.id = true → g.id.getD "" ≠ f.id.getD "") →
        f ∈ mergeFiles historyFiles currentFiles)
    ∧ (∀ (pre post : List SlackFile) (f : SlackFile),
        historyFiles ++ currentFiles = pre ++ f :: post →
        truthyOpt f.id = false →
        (∀ g ∈ pre, keyOf g ≠ keyOf f) →
        (∀ g ∈ historyFiles ++ currentFiles, truthyOpt g.id = true →
          g.id.getD "" ≠ keyOf f) →
        f ∈ mergeFiles historyFiles currentFiles) := by
  refine ⟨?_, ?_, ?_⟩
  · unfold mergeFiles
    have hinv := mergeFold_inv (historyFiles ++ currentFiles) []
      (by intro e he; exact absurd he (List.not_mem_nil e))
    have hnd := mergeFold_nodup (historyFiles ++ currentFiles) [] (by simp)
    rw [List.pairwise_map]
    have hnd' : ((historyFiles ++ currentFiles).foldl mergeStep []).Pairwise
        fun e e' => e.1 ≠ e'.1 := List.pairwise_map.mp hnd
    refine hnd'.imp_of_mem ?_
    intro a b ha hb hab
    rw [hinv a ha, hinv b hb]
    exact hab
  · intro pre post f heq hid hpost
    unfold mergeFiles
    rw [heq, List.foldl_append]
    exact mem_values_of_jsMapGet (mergeFold_last_id f hid post _ hpost)
  · intro pre post f heq hid hpre hall
    unfold mergeFiles
    rw [heq, List.foldl_append]
    have hkey : keyOf f = fallbackKey f := by
      unfold keyOf
      rw [if_neg (by simp [hid])]
    have hfresh : jsMapHasKey (fallbackKey f) (pre.foldl mergeStep []) = false :=
      mergeFold_hasKey_false (fallbackKey f) pre [] rfl
        (fun g hg => hkey ▸ hpre g hg)
    have hpost' : ∀ g ∈ post, truthyOpt g.id = true → g.id.getD "" ≠ fallbackKey f := by
      intro g hg ht
      have hgmem : g ∈ historyFiles ++ currentFiles := by
        rw [heq]
        exact List.mem_append_right pre (List.mem_cons_of_mem f hg)
      rw [← hkey]
      exact hall g hgmem ht
    exact mem_values_of_jsMapGet
      (mergeFold_first_fallback f hid post _ hfresh hpost')

/-- Witness for `mergeFiles_dedup_semantics`: the last occurrence of id "F1"
is in the merged set. -/
theorem mergeFiles_dedup_semantics_witness :
    fileB ∈ mergeFiles [fileA] [fileB] :=
  (mergeFiles_dedup_semantics [fileA] [fileB]).2.1 [fileA] [] fileB rfl rfl
    (by intro g hg; exact absurd hg (List.not_mem_nil g))

/-! ## Sorting lemmas -/

theorem orderedInsert_congr {α : Type} (r s : α → α → Prop)
    [DecidableRel r] [DecidableRel s] :
    ∀ (l : List α) (a : α), (∀ b ∈ l, r a b ↔ s a b) →
      List.orderedInsert r a l = List.orderedInsert s a l := by
  intro l
  induction l with
  | nil => intro a _; rfl
  | cons b t ih =>
    intro a h
    have hb := h b (List.mem_cons_self b t)
    simp only [List.orderedInsert]
    by_cases hr : r a b
    · rw [if_pos hr, if_pos (hb.mp hr)]
    · rw [if_neg hr, if_neg (fun hs => hr (hb.mpr hs))]
      rw [ih a fun b' hb' => h b' (List.mem_cons_of_mem b hb')]

theorem insertionSort_congr {α : Type} (r s : α → α → Prop)
    [DecidableRel r] [DecidableRel s] :
    ∀ l : List α, (∀ a ∈ l, ∀ b ∈ l, r a b ↔ s a b) →
      List.insertionSort r l = List.insertionSort s l := by
  intro l
  induction l with
  | nil => intro _; rfl
  | cons a t ih =>
    intro h
    simp only [List.insertionSort]
    rw [ih fun x hx y hy => h x (List.mem_cons_of_mem a hx) y (List.mem_cons_of_mem a hy)]
    apply orderedInsert_congr
    intro b hb
    have hbt : b ∈ t := (List.perm_insertionSort s t).mem_iff.mp hb
    exact h a (List.mem_cons_self a t) b (List.mem_cons_of_mem a hbt)

/-- The integer scaled comparison decides exactly the rational order of the
denoted values. -/
theorem jsNumLe_iff (a b : Int × Int) :
    jsNumLe a b = true ↔ ratOfParts a ≤ ratOfParts b := by
  rcases a with ⟨m1, e1⟩
  rcases b with ⟨m2, e2⟩
  unfold jsNumLe ratOfParts
  simp only [decide_eq_true_eq]
  have h10 : (0 : ℚ) < 10 := by norm_num
  have hkey : ∀ (m ee : Int), min e1 e2 ≤ ee →
      ((m * 10 ^ (ee - min e1 e2).toNat : Int) : ℚ) * (10 : ℚ) ^ (min e1 e2) =
        (m : ℚ) * (10 : ℚ) ^ ee := by
    intro m ee hge
    push_cast
    rw [← zpow_natCast (10 : ℚ) (ee - min e1 e2).toNat, Int.toNat_of_nonneg (by omega)]
    have hsum : ee - min e1 e2 + min e1 e2 = ee := by omega
    rw [mul_assoc, ← zpow_add₀ (by norm_num : (10 : ℚ) ≠ 0), hsum]
  have hc1 : ((m1 * 10 ^ (e1 - min e1 e2).toNat : Int) : ℚ) =
      (m1 : ℚ) * (10 : ℚ) ^ e1 * (10 : ℚ) ^ (-(min e1 e2)) := by
    rw [← hkey m1 e1 (min_le_left _ _)]
    rw [mul_assoc, ← zpow_add₀ (by norm_num : (10 : ℚ) ≠ 0)]
    simp
  have hc2 : ((m2 * 10 ^ (e2 - min e1 e2).toNat : Int) : ℚ) =
      (m2 : ℚ) * (10 : ℚ) ^ e2 * (10 : ℚ) ^ (-(min e1 e2)) := by
    rw [← hkey m2 e2 (min_le_right _ _)]
    rw [mul_assoc, ← zpow_add₀ (by norm_num : (10 : ℚ) ≠ 0)]
    simp
  constructor
  · intro h
    have hq : ((m1 * 10 ^ (e1 - min e1 e2).toNat : Int) : ℚ) ≤
        ((m2 * 10 ^ (e2 - min e1 e2).toNat : Int) : ℚ) := by exact_mod_cast h
    have hmul := mul_le_mul_of_nonneg_right hq (le_of_lt (zpow_pos h10 (min e1 e2)))
    rwa [hkey m1 e1 (min_le_left _ _), hkey m2 e2 (min_le_right _ _)] at hmul
  · intro h
    have hq : ((m1 * 10 ^ (e1 - min e1 e2).toNat : Int) : ℚ) ≤
        ((m2 * 10 ^ (e2 - min e1 e2).toNat : Int) : ℚ) := by
      rw [hc1, hc2]
      exact mul_le_mul_of_nonneg_right h (le_of_lt (zpow_pos h10 (-(min e1 e2))))
    exact_mod_cast hq

/-- The comparator relation agrees with the numeric key order on messages
whose timestamp keys parse. -/
theorem jsLeProp_iff_keyLe {a b : SlackMsg}
    (ha : (msgKey a).isSome = true) (hb : (msgKey b).isSome = true) :
    jsLeProp a b ↔ keyLe a b := by
  unfold jsLeProp jsCmpLe keyLe msgKeyD
  obtain ⟨x, hx⟩ := Option.isSome_iff_exists.mp ha
  obtain ⟨y, hy⟩ := Option.isSome_iff_exists.mp hb
  rw [hx, hy]
  simp only [Option.map_some', Option.getD_some]
  exact jsNumLe_iff x y

/-- Surviving messages come out sorted by their numeric timestamp keys. -/
theorem survivingMessages_sorted (messages : List SlackMsg) (currentTs : String)
    (exCur exThr : Bool)
    (hparse : ∀ m ∈ messages, (msgKey m).isSome = true) :
    (survivingMessages messages currentTs exCur exThr).Pairwise keyLe := by
  unfold survivingMessages
  rw [insertionSort_congr jsLeProp keyLe messages
    fun a ha b hb => jsLeProp_iff_keyLe (hparse a ha) (hparse b hb)]
  have hsorted : (List.insertionSort keyLe messages).Pairwise keyLe :=
    List.sorted_insertionSort keyLe messages
  exact hsorted.sublist (List.filter_sublist _)

/-! ## Claim C9 -/

/-- Claim C9: the rendered context lines are the surviving messages in order;
that order is ascending in the timestamp key read as a real number — whenever
one surviving message's key parses strictly below another's, it appears
strictly earlier — and concretely key "9.5" sorts before key "10.2". -/
theorem context_lines_numeric_order (fmtTime : Option String → String)
    (messages : List SlackMsg) (currentTs : String)
    (fileMap : List (String × SlackFile)) (exCur exThr : Bool)
    (hparse : ∀ m ∈ messages, (msgKey m).isSome = true) :
    ((mapMessagesToContext fmtTime messages currentTs fileMap exCur exThr).1 =
      (survivingMessages messages currentTs exCur exThr).map (renderMessage fmtTime))
    ∧ (∀ (i j : Nat)
        (hi : i < (survivingMessages messages currentTs exCur exThr).length)
        (hj : j < (survivingMessages messages currentTs exCur exThr).length),
        msgKeyD ((survivingMessages messages currentTs exCur exThr).get ⟨i, hi⟩) <
          msgKeyD ((survivingMessages messages currentTs exCur exThr).get ⟨j, hj⟩) →
        i < j)
    ∧ survivingMessages [msg102, msg95] "" false false = [msg95, msg102] := by
  refine ⟨rfl, ?_, by decide⟩
  intro i j hi hj hlt
  have hpw := survivingMessages_sorted messages currentTs exCur exThr hparse
  by_contra hnot
  have hji : j ≤ i := by omega
  rcases Nat.eq_or_lt_of_le hji with heq | hlt2
  · subst heq
    exact absurd hlt (lt_irrefl _)
  · have hle := List.pairwise_iff_get.mp hpw ⟨j, hj⟩ ⟨i, hi⟩ hlt2
    exact absurd hlt (not_lt.mpr hle)

/-- Witness for `context_lines_numeric_order`: the concrete two-message batch
(all keys parse) sorts "9.5" before "10.2". -/
theorem context_lines_numeric_order_witness :
    survivingMessages [msg102, msg95] "" false false = [msg95, msg102] :=
  (context_lines_numeric_order (fun _ => "t") [msg102, msg95] "" [] false false
    (by decide)).2.2

/-! ## Claim C1 -/

/-- Claim C1: the claim is right and the code wrong.  The
`app.post("/slack/events")` handler consults no idempotency guard, so a
second signature-valid delivery of the same `event_callback` schedules the
task pipeline again: across the two identical deliveries the pipeline is
invoked twice (not exactly once), each answered 200 — evaluated here on the
embedded handler at the concrete duplicate delivery. -/
theorem duplicate_event_invokes_pipeline_twice :
    (handleSlackEvents evRawBody (some evSig) (some evTs) (some evSecret) 100 evBody).2 +
      (handleSlackEvents evRawBody (some evSig) (some evTs) (some evSecret) 100 evBody).2 = 2
    ∧ (handleSlackEvents evRawBody (some evSig) (some evTs) (some evSecret) 100 evBody).1 =
      (200, "ok")
    ∧ (2 : Nat) ≠ 1 := by
  have hrun : handleSlackEvents evRawBody (some evSig) (some evTs) (some evSecret) 100 evBody =
      ((200, "ok"), 1) := by
    simp only [handleSlackEvents]
    have h1 : isFalsyStr (some evSig) = false :=
      isFalsyStr_of_ne_nil (buildSlackSignature_ne_nil evRawBody evTs evSecret)
    have h2 : isFalsyStr (some evTs) = false := rfl
    have h3 : isFalsyStr (some evSecret) = false := rfl
    rw [h1, h2, h3]
    simp only [Bool.or_self, Bool.false_eq_true, if_false, Option.getD_some]
    have h4 : jsParseInt evTs = some 100 := rfl
    rw [h4]
    simp only []
    rw [if_neg (by decide), if_neg (fun h => h rfl)]
    rfl
  rw [hrun]
  exact ⟨rfl, rfl, by decide⟩


/-! ## Claim C2 -/

/-- Claim C2: the claim is right and the code wrong.  The slash-command
handler never calls `isValidSlackResponseUrl` (nothing in the code does):
for a `/task` command whose `response_url` fails the allow-list check, the
embedded handler answers 200 with the processing message and the scheduled
task POSTs to that URL — not 400 with no outbound call — evaluated here at
a concrete failing `response_url`. -/
theorem slash_command_no_ssrf_guard :
    isValidSlackResponseUrl badResponseUrl = false
    ∧ handleSlashCommandPost cmdRawBody (some cmdSig) (some cmdTs) (some cmdSecret) cmdParams =
        ((200, "processing"), [badResponseUrl])
    ∧ (handleSlashCommandPost cmdRawBody (some cmdSig) (some cmdTs) (some cmdSecret)
        cmdParams).1.1 ≠ 400
    ∧ (handleSlashCommandPost cmdRawBody (some cmdSig) (some cmdTs) (some cmdSecret)
        cmdParams).2 ≠ [] := by
  have hrun : handleSlashCommandPost cmdRawBody (some cmdSig) (some cmdTs) (some cmdSecret)
      cmdParams = ((200, "processing"), [badResponseUrl]) := by
    simp only [handleSlashCommandPost]
    have h1 : isFalsyStr (some cmdSig) = false :=
      isFalsyStr_of_ne_nil (buildSlackSignature_ne_nil cmdRawBody cmdTs cmdSecret)
    have h2 : isFalsyStr (some cmdTs) = false := rfl
    have h3 : isFalsyStr (some cmdSecret) = false := rfl
    rw [h1, h2, h3]
    simp only [Bool.or_self, Bool.false_eq_true, if_false, Option.getD_some]
    rw [if_neg (fun h => h rfl)]
    rfl
  refine ⟨by decide, hrun, ?_, ?_⟩
  · rw [hrun]; decide
  · rw [hrun]; simp

end Boris
